import Mathlib

/-! BulletSim API data records (`APIData.h`)

A shallow embedding of the plain-data records that cross the boundary between
the physics core and the simulation host, and of the member functions the
header defines on them.

Conventions of the embedding:

* a C++ `float` is an IEEE 754 single-precision value: a finite value is an
  integer multiple of `2 ^ -149` with at most 24 significant bits and
  magnitude below `2 ^ 128`, and there are the two infinities and NaN; the two
  zeros are one value and so are all NaNs, which no operation of the header
  tells apart;
* a sum or difference of two `float`s is evaluated in single precision: it is
  the exact sum or difference rounded to the nearest `float`, ties to the even
  significand, with gradual underflow, and to an infinity from
  `2 ^ 128 - 2 ^ 103` on; a comparison with NaN is false;
* an object identifier (`IDTYPE`) is a natural number; the 32-bit range is
  stated explicitly where it matters;
* a member function that mutates `*this` takes the object before the call as
  its first argument and returns the object after the call;
* a constructor takes the raw storage it is run on as its first argument, so
  that members the constructor never writes keep whatever the storage held.
-/

set_option maxRecDepth 100000

namespace BulletSim

/-! ## Single-precision arithmetic -/

/-- The number of low bits a natural number loses when it is cut to 24
significant bits: none below `2 ^ 24`, else one more than its half loses. The
first argument bounds the number of halvings. -/
def shiftOf : Nat → Nat → Nat
  | 0, _ => 0
  | fuel + 1, k => if k < 2 ^ 24 then 0 else shiftOf fuel (k / 2) + 1

/-- Rounding of a natural number to 24 significant bits: to the nearest such
number, a tie to the one with the even significand. -/
def roundNat (k : Nat) : Nat :=
  let s := shiftOf k k
  let q := k / 2 ^ s
  let r := k % 2 ^ s
  if 2 ^ s < 2 * r ∨ (2 * r = 2 ^ s ∧ q % 2 = 1) then (q + 1) * 2 ^ s else q * 2 ^ s

/-- A value a `float` expression can take: NaN, an infinity, or the finite
value `n * 2 ^ -149`. -/
inductive F32Val where
  | nan
  | ninf
  | pinf
  | fin (n : Int)
deriving DecidableEq

namespace F32Val

/-- Rounding of the exact value `n * 2 ^ -149` to single precision: to
nearest, ties to even, overflowing to the infinity of its sign. -/
def round (n : Int) : F32Val :=
  if 0 ≤ n then
    (if roundNat n.toNat < 2 ^ 128 * 2 ^ 149 then fin (roundNat n.toNat) else pinf)
  else
    (if roundNat (-n).toNat < 2 ^ 128 * 2 ^ 149 then fin (-(roundNat (-n).toNat : Int))
      else ninf)

/-- The `float` sum `x + y`. -/
def add : F32Val → F32Val → F32Val
  | nan, _ => nan
  | _, nan => nan
  | pinf, ninf => nan
  | ninf, pinf => nan
  | pinf, _ => pinf
  | _, pinf => pinf
  | ninf, _ => ninf
  | _, ninf => ninf
  | fin a, fin b => round (a + b)

/-- The `float` difference `x - y`. -/
def sub : F32Val → F32Val → F32Val
  | nan, _ => nan
  | _, nan => nan
  | pinf, pinf => nan
  | ninf, ninf => nan
  | pinf, _ => pinf
  | _, ninf => pinf
  | ninf, _ => ninf
  | _, pinf => ninf
  | fin a, fin b => round (a - b)

/-- The comparison `x < y` of two `float`s. -/
def lt : F32Val → F32Val → Bool
  | nan, _ => false
  | _, nan => false
  | _, ninf => false
  | pinf, _ => false
  | ninf, _ => true
  | _, pinf => true
  | fin a, fin b => decide (a < b)

/-- The comparison `x <= y` of two `float`s. -/
def le : F32Val → F32Val → Bool
  | nan, _ => false
  | _, nan => false
  | ninf, _ => true
  | _, pinf => true
  | _, ninf => false
  | pinf, _ => false
  | fin a, fin b => decide (a ≤ b)

/-- The comparison `x == y` of two `float`s. -/
def eq : F32Val → F32Val → Bool
  | nan, _ => false
  | _, nan => false
  | ninf, ninf => true
  | pinf, pinf => true
  | fin a, fin b => decide (a = b)
  | _, _ => false

/-- Whether the value is finite. -/
def isFinite : F32Val → Bool
  | fin _ => true
  | _ => false

/-- Whether the value is one a `float` object can hold: NaN, an infinity, or
a finite value that rounding leaves as it is and that does not overflow. -/
def isFloat : F32Val → Bool
  | fin n => decide (roundNat n.natAbs = n.natAbs) && decide (n.natAbs < 2 ^ 128 * 2 ^ 149)
  | _ => true

/-- The finite value read as an exact rational; `0` for NaN and the
infinities, which have no rational value. -/
def toRat : F32Val → ℚ
  | fin n => (n : ℚ) / 2 ^ 149
  | _ => 0

end F32Val

/-- A `float` object: a value that single precision represents. -/
structure F32 where
  val : F32Val
  isFloat : val.isFloat = true
deriving DecidableEq

namespace F32

/-- The `float` whose value is `n * 2 ^ -149`; zero when single precision
does not represent that value. -/
def ofUnits (n : Int) : F32 :=
  if h : (F32Val.fin n).isFloat = true then ⟨F32Val.fin n, h⟩ else ⟨F32Val.fin 0, rfl⟩

/-- The literal `0.0` converted to `float`. -/
def zero : F32 := ofUnits 0

/-- The `float` whose value is `m * 2 ^ e`, for `e` from `-149` on; zero when
`e` is smaller or single precision does not represent that value. -/
def dyadic (m : Int) (e : Int) : F32 :=
  if 0 ≤ e + 149 then ofUnits (m * 2 ^ (e + 149).toNat) else zero

/-- The difference `x - y` as the expression computes it. -/
def sub (x y : F32) : F32Val := F32Val.sub x.val y.val

/-- The sum `x + y` as the expression computes it. -/
def add (x y : F32) : F32Val := F32Val.add x.val y.val

/-- The value read as an exact rational. -/
def toRat (x : F32) : ℚ := x.val.toRat

/-- The window test of one component as the code computes it: `x` lies
strictly between the rounded `c - e` and the rounded `c + e`. -/
def InWindow (x c e : F32) : Prop :=
  F32Val.lt (c.sub e) x.val = true ∧ F32Val.lt x.val (c.add e) = true

/-- The window test of one component in exact arithmetic: the three values
are finite and, read as rationals, `c - e < x < c + e`. -/
def ExactWindow (x c e : F32) : Prop :=
  x.val.isFinite = true ∧ c.val.isFinite = true ∧ e.val.isFinite = true ∧
    c.toRat - e.toRat < x.toRat ∧ x.toRat < c.toRat + e.toRat

/-- Whether the sum `c + e` and the difference `c - e` are computed without
rounding: both operands are finite and both results are the exact ones. -/
def exactPM (c e : F32) : Bool :=
  match c.val, e.val with
  | F32Val.fin cn, F32Val.fin en =>
    decide (c.add e = F32Val.fin (cn + en)) && decide (c.sub e = F32Val.fin (cn - en))
  | _, _ => false

/-- The component `x` sits on an endpoint of the window around `c`: it is the
sum `c + e` or the difference `c - e`, as computed in single precision or,
the three values being finite, exactly. -/
def OnBoundary (x c e : F32) : Prop :=
  x.val = c.add e ∨ x.val = c.sub e ∨
    (x.val.isFinite = true ∧ c.val.isFinite = true ∧ e.val.isFinite = true ∧
      (x.toRat = c.toRat + e.toRat ∨ x.toRat = c.toRat - e.toRat))

instance (x c e : F32) : Decidable (InWindow x c e) := by
  unfold InWindow
  infer_instance

instance (x c e : F32) : Decidable (ExactWindow x c e) := by
  unfold ExactWindow
  infer_instance

instance (x c e : F32) : Decidable (OnBoundary x c e) := by
  unfold OnBoundary
  infer_instance

end F32

/-! ## Fixed object ID codes -/

/-- Object identifiers, `IDTYPE` in the header. -/
abbrev IDTYPE := Nat

/-- The macro `ID_TERRAIN`: collisions with terrain carry a localID of zero. -/
def ID_TERRAIN : IDTYPE := 0

/-- The macro `ID_GROUND_PLANE`. -/
def ID_GROUND_PLANE : IDTYPE := 1

/-- The macro `ID_INVALID_HIT`. -/
def ID_INVALID_HIT : IDTYPE := 0xFFFFFFFF

/-! ## Engine-native types -/

/-- Modelled from the spec: the physics engine's native vector type
`btVector3`, declared in `btBulletDynamicsCommon.h`; a triple whose accessors
`getX`, `getY`, `getZ` return the arguments of its constructor. -/
structure btVector3 where
  getX : F32
  getY : F32
  getZ : F32
deriving DecidableEq

/-- Modelled from the spec: the physics engine's native rotation type
`btQuaternion`, declared in `btBulletDynamicsCommon.h`; a 4-tuple whose
accessors `getX`, `getY`, `getZ`, `getW` return the arguments of its
constructor. -/
structure btQuaternion where
  getX : F32
  getY : F32
  getZ : F32
  getW : F32
deriving DecidableEq

/-- Modelled from the spec: the physics engine's native transform
`btTransform`, declared in `btBulletDynamicsCommon.h`; what the header reads
of it are its origin and its rotation. -/
structure btTransform where
  getOrigin : btVector3
  getRotation : btQuaternion
deriving DecidableEq

/-! ## Vector3 -/

/-- API-exposed structure for a 3D vector. -/
structure Vector3 where
  X : F32
  Y : F32
  Z : F32
deriving DecidableEq

namespace Vector3

/-- The default constructor `Vector3()`: writes `0.0` to the three members. -/
def ctor (raw : Vector3) : Vector3 :=
  let s := { raw with X := F32.zero }
  let s := { s with Y := F32.zero }
  { s with Z := F32.zero }

/-- The constructor `Vector3(float x, float y, float z)`. -/
def ctor_xyz (raw : Vector3) (x y z : F32) : Vector3 :=
  let s := { raw with X := x }
  let s := { s with Y := y }
  { s with Z := z }

/-- The member `bool AlmostEqual(const Vector3& v, const float nEpsilon)`. -/
def AlmostEqual (self v : Vector3) (nEpsilon : F32) : Bool :=
  ((F32Val.lt (v.X.sub nEpsilon) self.X.val) && (F32Val.lt self.X.val (v.X.add nEpsilon))) &&
  ((F32Val.lt (v.Y.sub nEpsilon) self.Y.val) && (F32Val.lt self.Y.val (v.Y.add nEpsilon))) &&
  ((F32Val.lt (v.Z.sub nEpsilon) self.Z.val) && (F32Val.lt self.Z.val (v.Z.add nEpsilon)))

/-- The member `btVector3 GetBtVector3()`. -/
def GetBtVector3 (self : Vector3) : btVector3 :=
  btVector3.mk self.X self.Y self.Z

/-- The member `void operator= (const btVector3& v)`. -/
def assign_btVector3 (self : Vector3) (v : btVector3) : Vector3 :=
  let s := { self with X := v.getX }
  let s := { s with Y := v.getY }
  { s with Z := v.getZ }

/-- The member `bool operator==(const Vector3& b)`. -/
def eq (self b : Vector3) : Bool :=
  F32Val.eq self.X.val b.X.val && F32Val.eq self.Y.val b.Y.val &&
    F32Val.eq self.Z.val b.Z.val

/-- Squared Euclidean distance between two vectors of finite components, in
exact rational arithmetic; not part of the header, the yardstick the per-axis
test is compared with. -/
def distSq (a v : Vector3) : ℚ :=
  (a.X.toRat - v.X.toRat) ^ 2 + (a.Y.toRat - v.Y.toRat) ^ 2 + (a.Z.toRat - v.Z.toRat) ^ 2

/-- The three components are finite. -/
def isFinite (a : Vector3) : Bool :=
  a.X.val.isFinite && a.Y.val.isFinite && a.Z.val.isFinite

/-- Whether on every axis `v.c + e` and `v.c - e` are computed without
rounding. -/
def exactPM (v : Vector3) (e : F32) : Bool :=
  F32.exactPM v.X e && F32.exactPM v.Y e && F32.exactPM v.Z e

end Vector3

/-! ## Quaternion -/

/-- API-exposed structure for a rotation. -/
structure Quaternion where
  X : F32
  Y : F32
  Z : F32
  W : F32
deriving DecidableEq

namespace Quaternion

/-- The member `bool AlmostEqual(const Quaternion& q, float nEpsilon)`. -/
def AlmostEqual (self q : Quaternion) (nEpsilon : F32) : Bool :=
  ((F32Val.lt (q.X.sub nEpsilon) self.X.val) && (F32Val.lt self.X.val (q.X.add nEpsilon))) &&
  ((F32Val.lt (q.Y.sub nEpsilon) self.Y.val) && (F32Val.lt self.Y.val (q.Y.add nEpsilon))) &&
  ((F32Val.lt (q.Z.sub nEpsilon) self.Z.val) && (F32Val.lt self.Z.val (q.Z.add nEpsilon))) &&
  ((F32Val.lt (q.W.sub nEpsilon) self.W.val) && (F32Val.lt self.W.val (q.W.add nEpsilon)))

/-- The member `btQuaternion GetBtQuaternion()`. -/
def GetBtQuaternion (self : Quaternion) : btQuaternion :=
  btQuaternion.mk self.X self.Y self.Z self.W

/-- The member `void operator= (const btQuaternion& q)`. -/
def assign_btQuaternion (self : Quaternion) (q : btQuaternion) : Quaternion :=
  let s := { self with X := q.getX }
  let s := { s with Y := q.getY }
  let s := { s with Z := q.getZ }
  { s with W := q.getW }

/-- Whether on every component `q.c + e` and `q.c - e` are computed without
rounding. -/
def exactPM (q : Quaternion) (e : F32) : Bool :=
  F32.exactPM q.X e && F32.exactPM q.Y e && F32.exactPM q.Z e && F32.exactPM q.W e

end Quaternion

/-! ## ShapeData -/

/-- The enumeration `ShapeData::PhysicsShapeType`. -/
inductive ShapeData.PhysicsShapeType where
  | SHAPE_AVATAR
  | SHAPE_BOX
  | SHAPE_CONE
  | SHAPE_CYLINDER
  | SHAPE_SPHERE
  | SHAPE_MESH
  | SHAPE_HULL
deriving DecidableEq, Fintype

namespace ShapeData.PhysicsShapeType

/-- The number the header gives each enumerator; this number, not the name,
is what crosses the boundary. -/
def value : PhysicsShapeType → Int
  | SHAPE_AVATAR => 0
  | SHAPE_BOX => 1
  | SHAPE_CONE => 2
  | SHAPE_CYLINDER => 3
  | SHAPE_SPHERE => 4
  | SHAPE_MESH => 5
  | SHAPE_HULL => 6

/-- The enumerators in the order the header declares them. -/
def enumerators : List PhysicsShapeType :=
  [SHAPE_AVATAR, SHAPE_BOX, SHAPE_CONE, SHAPE_CYLINDER, SHAPE_SPHERE, SHAPE_MESH, SHAPE_HULL]

/-- Reading a number received across the boundary back as a shape kind: the
enumerator that carries this number, when there is one. -/
def ofValue? (n : Int) : Option PhysicsShapeType :=
  enumerators.find? (fun k => decide (k.value = n))

end ShapeData.PhysicsShapeType

/-- API-exposed structure defining an object; the two flags are passed as
32-bit integers rather than booleans. The member `Type` of the header is
`Type_` here, `Type` being reserved. -/
structure ShapeData where
  ID : IDTYPE
  Type_ : ShapeData.PhysicsShapeType
  Position : Vector3
  Rotation : Quaternion
  Velocity : Vector3
  Scale : Vector3
  Mass : F32
  Buoyancy : F32
  HullKey : Nat
  MeshKey : Nat
  Friction : F32
  Restitution : F32
  Collidable : Int
  Static : Int
deriving DecidableEq

/-! ## EntityProperties -/

/-- API-exposed structure to return physics updates. -/
structure EntityProperties where
  ID : IDTYPE
  Position : Vector3
  Rotation : Quaternion
  Velocity : Vector3
  Acceleration : Vector3
  AngularVelocity : Vector3
deriving DecidableEq

namespace EntityProperties

/-- The constructor `EntityProperties(IDTYPE id, const btTransform& startTransform)`.
Before the body runs, each `Vector3` member is built by `Vector3()`, while
`ID` and `Rotation`, which have no constructor, keep the contents of the
storage; the body then writes `ID`, `Position` and `Rotation`. -/
def ctor (raw : EntityProperties) (id : IDTYPE) (startTransform : btTransform) :
    EntityProperties :=
  let s : EntityProperties :=
    { ID := raw.ID
      Position := Vector3.ctor raw.Position
      Rotation := raw.Rotation
      Velocity := Vector3.ctor raw.Velocity
      Acceleration := Vector3.ctor raw.Acceleration
      AngularVelocity := Vector3.ctor raw.AngularVelocity }
  let s := { s with ID := id }
  let s := { s with Position := s.Position.assign_btVector3 startTransform.getOrigin }
  { s with Rotation := s.Rotation.assign_btQuaternion startTransform.getRotation }

/-- The member `void operator= (const EntityProperties& e)`. -/
def assign (self e : EntityProperties) : EntityProperties :=
  let s := { self with ID := e.ID }
  let s := { s with Position := e.Position }
  let s := { s with Rotation := e.Rotation }
  let s := { s with Velocity := e.Velocity }
  let s := { s with Acceleration := e.Acceleration }
  { s with AngularVelocity := e.AngularVelocity }

end EntityProperties

/-! ## Synchronization core

The header declares the records of the step protocol but neither the object
table, nor the step function, nor object creation; these follow the written
contract of the synchronization core. -/

/-- Modelled from the spec: an entry of the object table, which is not in
`APIData.h`: for one live dynamic object, its state after the solver ran for
the interval and the state last reported to the host. -/
structure TrackedObject where
  current : EntityProperties
  lastReported : EntityProperties
deriving DecidableEq

/-- Modelled from the spec: the change detection of the step protocol, which
is not in `APIData.h`: the new position, rotation, velocity and angular
velocity are compared with the last values reported to the host by
`AlmostEqual` with the policy epsilon; the object changed beyond tolerance
when one of the four comparisons fails. -/
def TrackedObject.changed (o : TrackedObject) (epsilon : F32) : Bool :=
  !(o.current.Position.AlmostEqual o.lastReported.Position epsilon) ||
  !(o.current.Rotation.AlmostEqual o.lastReported.Rotation epsilon) ||
  !(o.current.Velocity.AlmostEqual o.lastReported.Velocity epsilon) ||
  !(o.current.AngularVelocity.AlmostEqual o.lastReported.AngularVelocity epsilon)

/-- Modelled from the spec: the `EntityProperties` batch of one step, whose
step function is not in `APIData.h`: only the objects that changed beyond
tolerance are included, as an ordered sequence, stable by object identifier. -/
def stepBatch (epsilon : F32) (table : List TrackedObject) : List EntityProperties :=
  ((table.filter (fun o => o.changed epsilon)).map (fun o => o.current)).insertionSort
    (fun x y => x.ID ≤ y.ID)

/-- Modelled from the spec: the three identifiers reserved process-wide,
terrain, ground plane and the invalid-hit sentinel; the test is not in
`APIData.h`. -/
def isReservedID (id : IDTYPE) : Bool :=
  id == ID_TERRAIN || id == ID_GROUND_PLANE || id == ID_INVALID_HIT

/-- Modelled from the spec: object creation, which is not in `APIData.h`. The
world is its table of created objects; `resolves` is the external geometry
cache telling whether the mesh and hull keys of a shape resolve. A creation
with a reserved identifier or with an unresolvable key fails that one call and
leaves the world unchanged; otherwise the object enters the world under the
identifier the host gave. The result is the success flag and the world after
the call. -/
def CreateObject (resolves : ShapeData → Bool) (world : List ShapeData) (shape : ShapeData) :
    Bool × List ShapeData :=
  if isReservedID shape.ID then (false, world)
  else if !(resolves shape) then (false, world)
  else (true, world ++ [shape])

/-! ## Example data -/

/-- The vector `(x, y, z)` of three values given as `m * 2 ^ e`, for the
examples. -/
def exampleVector (x y z : Int × Int) : Vector3 :=
  Vector3.mk (F32.dyadic x.1 x.2) (F32.dyadic y.1 y.2) (F32.dyadic z.1 z.2)

/-- The quaternion `(0, 0, 0, w)` with `w` given as `m * 2 ^ e`, for the
examples. -/
def exampleRotation (w : Int × Int) : Quaternion :=
  Quaternion.mk F32.zero F32.zero F32.zero (F32.dyadic w.1 w.2)

/-- An object at rest at `position`, for the examples. -/
def exampleEntity (id : IDTYPE) (position : Vector3) : EntityProperties :=
  { ID := id
    Position := position
    Rotation := exampleRotation (1, 0)
    Velocity := exampleVector (0, 0) (0, 0) (0, 0)
    Acceleration := exampleVector (0, 0) (0, 0) (0, 0)
    AngularVelocity := exampleVector (0, 0) (0, 0) (0, 0) }

/-- A table of two objects for the examples: object `7` moved by `1` along X
since its last report, object `5` moved by `2 ^ -10` along Y. -/
def exampleTable : List TrackedObject :=
  [ { current := exampleEntity 7 (exampleVector (1, 0) (0, 0) (0, 0))
      lastReported := exampleEntity 7 (exampleVector (0, 0) (0, 0) (0, 0)) },
    { current := exampleEntity 5 (exampleVector (0, 0) (1, -10) (0, 0))
      lastReported := exampleEntity 5 (exampleVector (0, 0) (0, 0) (0, 0)) } ]

/-- A unit box of mass `1` at the origin carrying the identifier `id`, for
the examples. -/
def exampleShape (id : IDTYPE) : ShapeData :=
  { ID := id
    Type_ := ShapeData.PhysicsShapeType.SHAPE_BOX
    Position := exampleVector (0, 0) (0, 0) (0, 0)
    Rotation := exampleRotation (1, 0)
    Velocity := exampleVector (0, 0) (0, 0) (0, 0)
    Scale := exampleVector (1, 0) (1, 0) (1, 0)
    Mass := F32.dyadic 1 0
    Buoyancy := F32.zero
    HullKey := 0
    MeshKey := 0
    Friction := F32.dyadic 1 (-1)
    Restitution := F32.zero
    Collidable := 1
    Static := 0 }

/-! ## Shared lemmas: single-precision rounding -/

/-- What `shiftOf` computes, given enough halvings: the value keeps 24
significant bits after losing that many low bits. -/
theorem shiftOf_spec (fuel k : Nat) (h : k < 2 ^ (fuel + 24)) :
    (k < 2 ^ 24 ∧ shiftOf fuel k = 0) ∨
    (1 ≤ shiftOf fuel k ∧ 2 ^ (shiftOf fuel k + 23) ≤ k ∧ k < 2 ^ (shiftOf fuel k + 24)) := by
  induction fuel generalizing k with
  | zero =>
    left
    exact ⟨by simpa using h, rfl⟩
  | succ f ih =>
    by_cases hk : k < 2 ^ 24
    · left
      exact ⟨hk, by rw [shiftOf, if_pos hk]⟩
    · right
      have hs : shiftOf (f + 1) k = shiftOf f (k / 2) + 1 := by rw [shiftOf, if_neg hk]
      have h2 : k / 2 < 2 ^ (f + 24) := by
        have : 2 ^ (f + 1 + 24) = 2 * 2 ^ (f + 24) := by ring
        omega
      rw [hs]
      rcases ih (k / 2) h2 with ⟨h24, h0⟩ | ⟨h1, hlo, hhi⟩
      · rw [h0]
        norm_num at h24 hk ⊢
        omega
      · have e1 : 2 ^ (shiftOf f (k / 2) + 1 + 23) = 2 * 2 ^ (shiftOf f (k / 2) + 23) := by ring
        have e2 : 2 ^ (shiftOf f (k / 2) + 1 + 24) = 2 * 2 ^ (shiftOf f (k / 2) + 24) := by ring
        rw [e1, e2]
        refine ⟨by omega, by omega, by omega⟩

/-- The shift of `k`, with as many halvings allowed as `k` itself. -/
theorem shift_self_spec (k : Nat) :
    (k < 2 ^ 24 ∧ shiftOf k k = 0) ∨
    (1 ≤ shiftOf k k ∧ 2 ^ (shiftOf k k + 23) ≤ k ∧ k < 2 ^ (shiftOf k k + 24)) := by
  apply shiftOf_spec
  calc k < 2 ^ k := Nat.lt_two_pow k
    _ ≤ 2 ^ (k + 24) := Nat.pow_le_pow_right (by norm_num) (by omega)


/-- Rounding to a multiple of a fixed step, ties to even, is monotone. -/
theorem roundStep_mono (P x y : Nat) (hxy : x ≤ y) :
    (if P < 2 * (x % P) ∨ (2 * (x % P) = P ∧ (x / P) % 2 = 1) then (x / P + 1) * P
      else x / P * P) ≤
    (if P < 2 * (y % P) ∨ (2 * (y % P) = P ∧ (y / P) % 2 = 1) then (y / P + 1) * P
      else y / P * P) := by
  have hq : x / P ≤ y / P := Nat.div_le_div_right hxy
  have hy : y / P * P ≤ (if P < 2 * (y % P) ∨ (2 * (y % P) = P ∧ (y / P) % 2 = 1)
      then (y / P + 1) * P else y / P * P) := by
    split_ifs
    · exact Nat.mul_le_mul_right P (Nat.le_succ _)
    · exact le_refl _
  have hx : (if P < 2 * (x % P) ∨ (2 * (x % P) = P ∧ (x / P) % 2 = 1) then (x / P + 1) * P
      else x / P * P) ≤ (x / P + 1) * P := by
    split_ifs
    · exact le_refl _
    · exact Nat.mul_le_mul_right P (Nat.le_succ _)
  rcases Nat.lt_or_eq_of_le hq with hlt | heq
  · exact le_trans hx (le_trans (Nat.mul_le_mul_right P hlt) hy)
  · have hxm := Nat.div_add_mod x P
    have hym := Nat.div_add_mod y P
    rw [heq] at hxm
    have hr : x % P ≤ y % P := by omega
    rw [heq]
    by_cases hux : P < 2 * (x % P) ∨ (2 * (x % P) = P ∧ (y / P) % 2 = 1)
    · have huy : P < 2 * (y % P) ∨ (2 * (y % P) = P ∧ (y / P) % 2 = 1) := by
        rcases hux with h | ⟨h1, h2⟩
        · left; omega
        · by_cases h3 : 2 * (y % P) = P
          · right; exact ⟨h3, h2⟩
          · left; omega
      rw [if_pos hux, if_pos huy]
    · rw [if_neg hux]
      exact hy

/-- Rounding to 24 significant bits is monotone. -/
theorem roundNat_mono (x y : Nat) (hxy : x ≤ y) : roundNat x ≤ roundNat y := by
  rcases Nat.lt_or_ge (shiftOf x x) (shiftOf y y) with hlt | hge
  · have hx : roundNat x ≤ 2 ^ (shiftOf x x + 24) := by
      rcases shift_self_spec x with ⟨h24, h0⟩ | ⟨h1, hlo, hhi⟩
      · have : roundNat x = x := by
          simp only [roundNat, h0, pow_zero, Nat.mod_one, Nat.div_one]
          norm_num
        rw [this, h0]
        exact le_of_lt h24
      · have hq : x / 2 ^ shiftOf x x < 2 ^ 24 := by
          rw [Nat.div_lt_iff_lt_mul (by positivity)]
          calc x < 2 ^ (shiftOf x x + 24) := hhi
            _ = 2 ^ 24 * 2 ^ shiftOf x x := by ring
        have hle : roundNat x ≤ (x / 2 ^ shiftOf x x + 1) * 2 ^ shiftOf x x := by
          simp only [roundNat]
          split_ifs
          · exact le_refl _
          · exact Nat.mul_le_mul_right _ (Nat.le_succ _)
        calc roundNat x ≤ (x / 2 ^ shiftOf x x + 1) * 2 ^ shiftOf x x := hle
          _ ≤ 2 ^ 24 * 2 ^ shiftOf x x := Nat.mul_le_mul_right _ hq
          _ = 2 ^ (shiftOf x x + 24) := by ring
    have hy : 2 ^ (shiftOf y y + 23) ≤ roundNat y := by
      rcases shift_self_spec y with ⟨h24, h0⟩ | ⟨h1, hlo, hhi⟩
      · omega
      · have hq : 2 ^ 23 ≤ y / 2 ^ shiftOf y y := by
          rw [Nat.le_div_iff_mul_le (by positivity)]
          calc 2 ^ 23 * 2 ^ shiftOf y y = 2 ^ (shiftOf y y + 23) := by ring
            _ ≤ y := hlo
        have hge : y / 2 ^ shiftOf y y * 2 ^ shiftOf y y ≤ roundNat y := by
          simp only [roundNat]
          split_ifs
          · exact Nat.mul_le_mul_right _ (Nat.le_succ _)
          · exact le_refl _
        calc 2 ^ (shiftOf y y + 23) = 2 ^ 23 * 2 ^ shiftOf y y := by ring
          _ ≤ y / 2 ^ shiftOf y y * 2 ^ shiftOf y y := Nat.mul_le_mul_right _ hq
          _ ≤ roundNat y := hge
    calc roundNat x ≤ 2 ^ (shiftOf x x + 24) := hx
      _ ≤ 2 ^ (shiftOf y y + 23) := Nat.pow_le_pow_right (by norm_num) (by omega)
      _ ≤ roundNat y := hy
  · have hs : shiftOf x x = shiftOf y y := by
      apply le_antisymm _ hge
      by_contra hcon
      push_neg at hcon
      rcases shift_self_spec x with ⟨h24, h0⟩ | ⟨h1, hlo, hhi⟩
      · omega
      · rcases shift_self_spec y with ⟨h24y, h0y⟩ | ⟨h1y, hloy, hhiy⟩
        · have : 2 ^ 24 ≤ 2 ^ (shiftOf x x + 23) := Nat.pow_le_pow_right (by norm_num) (by omega)
          omega
        · have : 2 ^ (shiftOf y y + 24) ≤ 2 ^ (shiftOf x x + 23) :=
            Nat.pow_le_pow_right (by norm_num) (by omega)
          omega
    simp only [roundNat]
    rw [hs]
    exact roundStep_mono (2 ^ shiftOf y y) x y hxy

namespace F32Val

/-- Rounding leaves a value that single precision represents as it is. -/
theorem round_of_isFloat (n : Int) (h : (fin n).isFloat = true) : round n = fin n := by
  simp only [isFloat, Bool.and_eq_true, decide_eq_true_eq] at h
  obtain ⟨h1, h2⟩ := h
  unfold round
  by_cases hn : 0 ≤ n
  · have e : n.toNat = n.natAbs := by omega
    rw [if_pos hn, e, h1, if_pos h2]
    congr 1
    omega
  · have e : (-n).toNat = n.natAbs := by omega
    rw [if_neg hn, e, h1, if_pos h2]
    congr 1
    omega

/-- Rounding to single precision is monotone. -/
theorem round_mono (n m : Int) (h : n ≤ m) : le (round n) (round m) = true := by
  unfold round
  by_cases hn : 0 ≤ n
  · have hm : 0 ≤ m := le_trans hn h
    have hr := roundNat_mono n.toNat m.toNat (by omega)
    rw [if_pos hn, if_pos hm]
    split_ifs <;> simp [le] <;> omega
  · rw [if_neg hn]
    by_cases hm : 0 ≤ m
    · rw [if_pos hm]
      split_ifs <;> simp [le]
      omega
    · rw [if_neg hm]
      have hr := roundNat_mono (-m).toNat (-n).toNat (by omega)
      split_ifs <;> simp [le] <;> omega

/-- A rounded value is never NaN. -/
theorem round_ne_nan (n : Int) : round n ≠ nan := by
  unfold round
  split_ifs <;> simp

/-- No value is below itself. -/
theorem lt_irrefl (x : F32Val) : lt x x = false := by
  cases x <;> simp [lt]

/-- Nothing is below negative infinity. -/
theorem lt_ninf (x : F32Val) : lt x ninf = false := by
  cases x <;> rfl

/-- Positive infinity is below nothing. -/
theorem pinf_lt (x : F32Val) : lt pinf x = false := by
  cases x <;> rfl

/-- Nothing is below NaN. -/
theorem lt_nan (x : F32Val) : lt x nan = false := by
  cases x <;> rfl

/-- NaN is below nothing. -/
theorem nan_lt (x : F32Val) : lt nan x = false := by
  cases x <;> rfl

/-- Negative infinity is below every finite value. -/
theorem ninf_lt_fin (n : Int) : lt ninf (fin n) = true := rfl

/-- Every finite value is below positive infinity. -/
theorem fin_lt_pinf (n : Int) : lt (fin n) pinf = true := rfl

/-- Negative infinity is below positive infinity. -/
theorem ninf_lt_pinf : lt ninf pinf = true := rfl

/-- Finite values compare as their integers do. -/
theorem lt_fin_fin (a b : Int) : lt (fin a) (fin b) = decide (a < b) := rfl

/-- Transitivity of `<=` then `<`. -/
theorem lt_of_le_of_lt (x y z : F32Val) (h1 : le x y = true) (h2 : lt y z = true) :
    lt x z = true := by
  cases x <;> cases y <;> cases z <;> simp [le, lt] at h1 h2 ⊢
  omega

/-- Transitivity of `<` then `<=`. -/
theorem lt_of_lt_of_le (x y z : F32Val) (h1 : lt x y = true) (h2 : le y z = true) :
    lt x z = true := by
  cases x <;> cases y <;> cases z <;> simp [le, lt] at h1 h2 ⊢
  omega

/-- Transitivity of `<`. -/
theorem lt_trans (x y z : F32Val) (h1 : lt x y = true) (h2 : lt y z = true) :
    lt x z = true := by
  cases x <;> cases y <;> cases z <;> simp [lt] at h1 h2 ⊢
  omega

/-- A rounded value below a `float` comes from an exact value below it. -/
theorem lt_of_round_lt (n x : Int) (hx : (fin x).isFloat = true)
    (h : lt (round n) (fin x) = true) : n < x := by
  by_contra hcon
  have hle : le (round x) (round n) = true := round_mono x n (by omega)
  rw [round_of_isFloat x hx] at hle
  have := lt_of_le_of_lt _ _ _ hle h
  rw [lt_irrefl] at this
  exact Bool.false_ne_true this

/-- A rounded value above a `float` comes from an exact value above it. -/
theorem lt_of_lt_round (n x : Int) (hx : (fin x).isFloat = true)
    (h : lt (fin x) (round n) = true) : x < n := by
  by_contra hcon
  have hle : le (round n) (round x) = true := round_mono n x (by omega)
  rw [round_of_isFloat x hx] at hle
  have := lt_of_lt_of_le _ _ _ h hle
  rw [lt_irrefl] at this
  exact Bool.false_ne_true this

/-- Finite values compare as their rational readings do. -/
theorem toRat_lt_iff (n m : Int) : (fin n).toRat < (fin m).toRat ↔ n < m := by
  simp only [toRat]
  rw [div_lt_div_iff_of_pos_right (by positivity)]
  exact Int.cast_lt

/-- Finite values are equal when their rational readings are. -/
theorem toRat_eq_iff (n m : Int) : (fin n).toRat = (fin m).toRat ↔ n = m := by
  simp only [toRat]
  rw [div_left_inj' (by positivity)]
  exact Int.cast_inj

/-- The rational reading of an exact sum of finite values. -/
theorem toRat_add (n m : Int) : (fin (n + m)).toRat = (fin n).toRat + (fin m).toRat := by
  simp only [toRat]
  push_cast
  ring

/-- The rational reading of an exact difference of finite values. -/
theorem toRat_sub (n m : Int) : (fin (n - m)).toRat = (fin n).toRat - (fin m).toRat := by
  simp only [toRat]
  push_cast
  ring

end F32Val

/-! ## Shared lemmas: the window test of one component -/

/-- The two-sided strict window around `c` is the strict bound on the
absolute difference. -/
theorem window_iff_abs (x c e : ℚ) : (c - e < x ∧ x < c + e) ↔ |x - c| < e := by
  rw [abs_lt]
  constructor
  · rintro ⟨h1, h2⟩
    exact ⟨by linarith, by linarith⟩
  · rintro ⟨h1, h2⟩
    exact ⟨by linarith, by linarith⟩

namespace F32

/-- What the code accepts lies inside the exact window: rounding the two
bounds never lets in a value outside it. -/
theorem exactWindow_of_inWindow (x c e : F32) (he : e.val.isFinite = true)
    (h : InWindow x c e) : ExactWindow x c e := by
  obtain ⟨xv, hx⟩ := x
  obtain ⟨cv, hc⟩ := c
  obtain ⟨ev, hev⟩ := e
  simp only [InWindow, F32.sub, F32.add] at h
  simp only [ExactWindow, F32.toRat]
  cases xv <;> cases cv <;> cases ev <;>
    simp [F32Val.sub, F32Val.add, F32Val.lt_ninf, F32Val.pinf_lt, F32Val.lt_nan, F32Val.nan_lt,
      F32Val.ninf_lt_fin, F32Val.fin_lt_pinf, F32Val.ninf_lt_pinf,
      F32Val.isFinite] at h he ⊢
  rename_i xn cn en
  obtain ⟨h1, h2⟩ := h
  have l1 := F32Val.lt_of_round_lt (cn - en) xn hx h1
  have l2 := F32Val.lt_of_lt_round (cn + en) xn hx h2
  constructor
  · rw [← F32Val.toRat_sub, F32Val.toRat_lt_iff]
    exact l1
  · rw [← F32Val.toRat_add, F32Val.toRat_lt_iff]
    exact l2

/-- What `exactPM` tests: finite operands, exact sum and exact difference. -/
theorem exactPM_spec (c e : F32) (h : exactPM c e = true) :
    ∃ cn en : Int, c.val = F32Val.fin cn ∧ e.val = F32Val.fin en ∧
      c.add e = F32Val.fin (cn + en) ∧ c.sub e = F32Val.fin (cn - en) := by
  unfold exactPM at h
  split at h
  · rename_i cn en hc he
    simp only [Bool.and_eq_true, decide_eq_true_eq] at h
    exact ⟨cn, en, hc, he, h.1, h.2⟩
  · exact absurd h Bool.false_ne_true

/-- Where the two bounds are computed without rounding, the code accepts
exactly the exact window. -/
theorem inWindow_of_exactWindow (x c e : F32) (hex : exactPM c e = true)
    (h : ExactWindow x c e) : InWindow x c e := by
  obtain ⟨cn, en, hc, he, hadd, hsub⟩ := exactPM_spec c e hex
  obtain ⟨hxf, -, -, h1, h2⟩ := h
  obtain ⟨xv, hx⟩ := x
  cases xv <;> simp [F32Val.isFinite] at hxf
  rename_i xn
  simp only [F32.toRat, hc, he] at h1 h2
  rw [← F32Val.toRat_sub, F32Val.toRat_lt_iff] at h1
  rw [← F32Val.toRat_add, F32Val.toRat_lt_iff] at h2
  simp only [InWindow, hadd, hsub, F32Val.lt, decide_eq_true_eq]
  exact ⟨h1, h2⟩

/-- A component on an endpoint of the window is rejected. -/
theorem not_inWindow_of_onBoundary (x c e : F32) (hb : OnBoundary x c e) :
    ¬ InWindow x c e := by
  rintro ⟨h1, h2⟩
  rcases hb with hb | hb | ⟨hxf, hcf, hef, hb⟩
  · rw [hb, F32Val.lt_irrefl] at h2
    exact Bool.false_ne_true h2
  · rw [hb, F32Val.lt_irrefl] at h1
    exact Bool.false_ne_true h1
  · obtain ⟨xv, hx⟩ := x
    obtain ⟨cv, hc⟩ := c
    obtain ⟨ev, hev⟩ := e
    cases xv <;> cases cv <;> cases ev <;> simp [F32Val.isFinite] at hxf hcf hef
    rename_i xn cn en
    simp only [F32.toRat] at hb
    simp only [F32.sub, F32.add, F32Val.sub, F32Val.add] at h1 h2
    rcases hb with hb | hb
    · rw [← F32Val.toRat_add, F32Val.toRat_eq_iff] at hb
      rw [← hb, F32Val.round_of_isFloat xn hx, F32Val.lt_irrefl] at h2
      exact Bool.false_ne_true h2
    · rw [← F32Val.toRat_sub, F32Val.toRat_eq_iff] at hb
      rw [← hb, F32Val.round_of_isFloat xn hx, F32Val.lt_irrefl] at h1
      exact Bool.false_ne_true h1

/-- A larger epsilon widens the window the code tests. -/
theorem inWindow_mono (x c e1 e2 : F32) (hle : F32Val.le e1.val e2.val = true)
    (h : InWindow x c e1) : InWindow x c e2 := by
  obtain ⟨xv, hx⟩ := x
  obtain ⟨cv, hc⟩ := c
  obtain ⟨e1v, he1⟩ := e1
  obtain ⟨e2v, he2⟩ := e2
  simp only [InWindow, F32.sub, F32.add] at h ⊢
  cases xv <;> cases cv <;> cases e1v <;> cases e2v <;>
    simp [F32Val.sub, F32Val.add, F32Val.lt_ninf, F32Val.pinf_lt, F32Val.lt_nan, F32Val.nan_lt,
      F32Val.ninf_lt_fin, F32Val.fin_lt_pinf, F32Val.ninf_lt_pinf,
      F32Val.le] at h hle ⊢
  rename_i xn cn e1n e2n
  obtain ⟨h1, h2⟩ := h
  constructor
  · exact F32Val.lt_of_le_of_lt _ _ _ (F32Val.round_mono _ _ (by omega)) h1
  · exact F32Val.lt_of_lt_of_le _ _ _ h2 (F32Val.round_mono _ _ (by omega))

/-- With an epsilon that is zero or negative the window is empty. -/
theorem not_inWindow_of_nonpos (x c e : F32) (hle : F32Val.le e.val zero.val = true) :
    ¬ InWindow x c e := by
  obtain ⟨xv, hx⟩ := x
  obtain ⟨cv, hc⟩ := c
  obtain ⟨ev, hev⟩ := e
  have hz : zero.val = F32Val.fin 0 := by decide
  rw [hz] at hle
  simp only [InWindow, F32.sub, F32.add]
  rintro ⟨h1, h2⟩
  cases xv <;> cases cv <;> cases ev <;>
    simp [F32Val.sub, F32Val.add, F32Val.lt_ninf, F32Val.pinf_lt, F32Val.lt_nan, F32Val.nan_lt,
      F32Val.ninf_lt_fin, F32Val.fin_lt_pinf, F32Val.ninf_lt_pinf,
      F32Val.le] at h1 h2 hle
  rename_i xn cn en
  have hm : F32Val.le (F32Val.round (cn + en)) (F32Val.round (cn - en)) = true :=
    F32Val.round_mono _ _ (by omega)
  have h3 := F32Val.lt_of_lt_of_le _ _ _ h2 hm
  have h4 := F32Val.lt_trans _ _ _ h1 h3
  rw [F32Val.lt_irrefl] at h4
  exact Bool.false_ne_true h4

/-- A window that accepts something has a positive epsilon. -/
theorem pos_of_inWindow (x c e : F32) (h : InWindow x c e) :
    F32Val.lt zero.val e.val = true := by
  by_contra hcon
  have hz : zero.val = F32Val.fin 0 := by decide
  have hle : F32Val.le e.val zero.val = true ∨ e.val = F32Val.nan := by
    rw [hz] at hcon ⊢
    obtain ⟨ev, hev⟩ := e
    cases ev <;> simp [F32Val.lt, F32Val.le] at hcon ⊢
    exact hcon
  rcases hle with hle | hnan
  · exact not_inWindow_of_nonpos x c e hle h
  · obtain ⟨h1, -⟩ := h
    obtain ⟨cv, hc⟩ := c
    obtain ⟨xv, hx⟩ := x
    simp only [F32.sub] at h1
    simp only at hnan
    rw [hnan] at h1
    cases cv <;> cases xv <;> simp [F32Val.sub, F32Val.nan_lt] at h1

end F32

/-! ## Shared lemmas: doubling, self-comparison and symmetry -/

/-- The shift is determined by the binade of the number. -/
theorem shift_unique (k s : Nat) (hs : 1 ≤ s) (hlo : 2 ^ (s + 23) ≤ k)
    (hhi : k < 2 ^ (s + 24)) : shiftOf k k = s := by
  rcases shift_self_spec k with ⟨h24, -⟩ | ⟨h1, hlo2, hhi2⟩
  · have : 2 ^ 24 ≤ 2 ^ (s + 23) := Nat.pow_le_pow_right (by norm_num) (by omega)
    omega
  · by_contra hne
    rcases Nat.lt_or_gt_of_ne hne with hlt | hgt
    · have : 2 ^ (shiftOf k k + 24) ≤ 2 ^ (s + 23) :=
        Nat.pow_le_pow_right (by norm_num) (by omega)
      omega
    · have : 2 ^ (s + 24) ≤ 2 ^ (shiftOf k k + 23) :=
        Nat.pow_le_pow_right (by norm_num) (by omega)
      omega

/-- Below `2 ^ 24` nothing is cut. -/
theorem shift_small (k : Nat) (h : k < 2 ^ 24) : shiftOf k k = 0 := by
  rcases shift_self_spec k with ⟨-, h0⟩ | ⟨h1, hlo, -⟩
  · exact h0
  · have : 2 ^ 24 ≤ 2 ^ (shiftOf k k + 23) := Nat.pow_le_pow_right (by norm_num) (by omega)
    omega

/-- Below `2 ^ 24` rounding changes nothing. -/
theorem roundNat_small (k : Nat) (h : k < 2 ^ 24) : roundNat k = k := by
  simp only [roundNat, shift_small k h, pow_zero, Nat.mod_one, Nat.div_one]
  norm_num

/-- The double of a number that rounding leaves as it is, is left as it is. -/
theorem roundNat_double (k : Nat) (h : roundNat k = k) : roundNat (2 * k) = 2 * k := by
  rcases shift_self_spec k with ⟨h24, h0⟩ | ⟨h1, hlo, hhi⟩
  · by_cases hk : 2 * k < 2 ^ 24
    · exact roundNat_small _ hk
    · have hs : shiftOf (2 * k) (2 * k) = 1 :=
        shift_unique (2 * k) 1 (le_refl 1) (by norm_num at hk ⊢; omega)
          (by norm_num at h24 ⊢; omega)
      simp only [roundNat, hs, pow_one]
      have e1 : 2 * k / 2 = k := by omega
      have e2 : 2 * k % 2 = 0 := by omega
      rw [e1, e2]
      norm_num
      omega
  · have hs : shiftOf (2 * k) (2 * k) = shiftOf k k + 1 := by
      apply shift_unique _ _ (by omega)
      · have : 2 ^ (shiftOf k k + 1 + 23) = 2 * 2 ^ (shiftOf k k + 23) := by ring
        omega
      · have : 2 ^ (shiftOf k k + 1 + 24) = 2 * 2 ^ (shiftOf k k + 24) := by ring
        omega
    have hP : 0 < 2 ^ shiftOf k k := by positivity
    have hdm := Nat.div_add_mod k (2 ^ shiftOf k k)
    have hr : k % 2 ^ shiftOf k k < 2 ^ shiftOf k k := Nat.mod_lt _ hP
    have hr0 : k % 2 ^ shiftOf k k = 0 := by
      simp only [roundNat] at h
      split_ifs at h
      · rw [Nat.add_mul, Nat.mul_comm] at h
        omega
      · rw [Nat.mul_comm] at h
        omega
    have hk : k = 2 ^ shiftOf k k * (k / 2 ^ shiftOf k k) := by omega
    have hP2 : 2 ^ (shiftOf k k + 1) = 2 * 2 ^ shiftOf k k := by ring
    have e1 : 2 * k / (2 * 2 ^ shiftOf k k) = k / 2 ^ shiftOf k k :=
      Nat.mul_div_mul_left _ _ (by norm_num)
    have e2 : 2 * k % (2 * 2 ^ shiftOf k k) = 0 := by
      rw [Nat.mul_mod_mul_left, hr0]
    simp only [roundNat, hs, hP2, e1, e2]
    have hne : ¬ (2 * 2 ^ shiftOf k k < 2 * 0 ∨
        (2 * 0 = 2 * 2 ^ shiftOf k k ∧ k / 2 ^ shiftOf k k % 2 = 1)) := by
      omega
    rw [if_neg hne]
    calc k / 2 ^ shiftOf k k * (2 * 2 ^ shiftOf k k)
        = 2 * (2 ^ shiftOf k k * (k / 2 ^ shiftOf k k)) := by ring
      _ = 2 * k := by rw [← hk]

namespace F32Val

/-- The `float` sum of a finite `float` with itself is its exact double,
unless it overflows to the infinity of its sign. -/
theorem add_self_of_isFloat (n : Int) (h : (fin n).isFloat = true) :
    add (fin n) (fin n) = fin (2 * n) ∨ (add (fin n) (fin n) = pinf ∧ 0 < n) ∨
      (add (fin n) (fin n) = ninf ∧ n < 0) := by
  simp only [isFloat, Bool.and_eq_true, decide_eq_true_eq] at h
  obtain ⟨h1, -⟩ := h
  have hd := roundNat_double n.natAbs h1
  simp only [add, round]
  by_cases hn : 0 ≤ n + n
  · have e : (n + n).toNat = 2 * n.natAbs := by omega
    rw [if_pos hn, e, hd]
    split_ifs with hb
    · left
      congr 1
      omega
    · right
      left
      refine ⟨rfl, ?_⟩
      by_contra hcon
      have : n.natAbs = 0 := by omega
      rw [this] at hb
      norm_num at hb
  · have e : (-(n + n)).toNat = 2 * n.natAbs := by omega
    rw [if_neg hn, e, hd]
    split_ifs
    · left
      congr 1
      omega
    · right
      right
      exact ⟨rfl, by omega⟩

/-- Between comparable values, strictly below means different. -/
theorem lt_iff_ne_of_le (x y : F32Val) (h : le x y = true) : lt x y = true ↔ x ≠ y := by
  cases x <;> cases y <;> simp [le, lt] at h ⊢
  omega

/-- Values that compare equal with `==` are the same value. -/
theorem eq_of_eq_true (x y : F32Val) (h : eq x y = true) : x = y := by
  cases x <;> cases y <;> simp [eq] at h ⊢
  exact h

end F32Val

namespace F32

/-- Two links of the window test with `e` give the window test with the
double of `e`. -/
theorem inWindow_chain (a b c e e2 : F32) (h2 : e2.val = F32Val.add e.val e.val)
    (hab : InWindow a b e) (hbc : InWindow b c e) : InWindow a c e2 := by
  obtain ⟨av, ha⟩ := a
  obtain ⟨bv, hb⟩ := b
  obtain ⟨cv, hc⟩ := c
  obtain ⟨ev, he⟩ := e
  obtain ⟨e2v, he2⟩ := e2
  simp only [InWindow, F32.sub, F32.add] at hab hbc h2 ⊢
  cases ev with
  | nan => cases bv <;> simp [F32Val.sub, F32Val.nan_lt] at hab
  | ninf =>
    cases bv <;> simp [F32Val.sub, F32Val.add, F32Val.nan_lt, F32Val.pinf_lt, F32Val.lt_nan,
      F32Val.lt_ninf] at hab
  | pinf =>
    have h2p : e2v = F32Val.pinf := by rw [h2]; rfl
    rw [h2p]
    cases av <;> cases bv <;> cases cv <;>
      simp [F32Val.sub, F32Val.add, F32Val.nan_lt, F32Val.pinf_lt, F32Val.lt_nan,
        F32Val.lt_ninf, F32Val.ninf_lt_fin, F32Val.fin_lt_pinf] at hab hbc ⊢
  | fin en =>
    cases av <;> cases bv <;> cases cv <;>
      simp only [F32Val.sub, F32Val.add, F32Val.nan_lt, F32Val.pinf_lt, F32Val.lt_nan,
        F32Val.lt_ninf, Bool.false_eq_true, false_and, and_false] at hab hbc
    rename_i an bn cn
    obtain ⟨hab1, hab2⟩ := hab
    obtain ⟨hbc1, hbc2⟩ := hbc
    have l1 := F32Val.lt_of_round_lt (cn - en) bn hb hbc1
    have l2 := F32Val.lt_of_lt_round (cn + en) bn hb hbc2
    rcases F32Val.add_self_of_isFloat en he with hd | ⟨hd, -⟩ | ⟨-, hneg⟩
    · rw [h2, hd]
      simp only [F32Val.sub, F32Val.add]
      constructor
      · exact F32Val.lt_of_le_of_lt _ _ _ (F32Val.round_mono _ _ (by omega)) hab1
      · exact F32Val.lt_of_lt_of_le _ _ _ hab2 (F32Val.round_mono _ _ (by omega))
    · rw [h2, hd]
      exact ⟨rfl, rfl⟩
    · omega

/-- A value passes the window test around itself exactly when rounding absorbs
epsilon neither in the difference nor in the sum. -/
theorem inWindow_self_iff (c e : F32) (hpos : F32Val.lt zero.val e.val = true) :
    InWindow c c e ↔ (c.sub e ≠ c.val ∧ c.add e ≠ c.val) := by
  obtain ⟨cv, hc⟩ := c
  obtain ⟨ev, he⟩ := e
  have hz : zero.val = F32Val.fin 0 := by decide
  rw [hz] at hpos
  simp only [InWindow, F32.sub, F32.add]
  cases cv <;> cases ev <;>
    simp [F32Val.sub, F32Val.add, F32Val.nan_lt, F32Val.pinf_lt, F32Val.lt_nan,
      F32Val.lt_ninf, F32Val.ninf_lt_fin, F32Val.fin_lt_pinf] at hpos ⊢
  rename_i cn en
  simp only [F32Val.lt_fin_fin, decide_eq_true_eq] at hpos
  have hl : F32Val.le (F32Val.round (cn - en)) (F32Val.fin cn) = true := by
    have := F32Val.round_mono (cn - en) cn (by omega)
    rwa [F32Val.round_of_isFloat cn hc] at this
  have hu : F32Val.le (F32Val.fin cn) (F32Val.round (cn + en)) = true := by
    have := F32Val.round_mono cn (cn + en) (by omega)
    rwa [F32Val.round_of_isFloat cn hc] at this
  rw [F32Val.lt_iff_ne_of_le _ _ hl, F32Val.lt_iff_ne_of_le _ _ hu]
  constructor
  · rintro ⟨h1, h2⟩
    exact ⟨h1, fun h => h2 h.symm⟩
  · rintro ⟨h1, h2⟩
    exact ⟨h1, fun h => h2 h.symm⟩

/-- Where the sums and differences with epsilon are computed without rounding
on both sides, the window test is symmetric. -/
theorem inWindow_symm (x c e : F32) (hx : exactPM x e = true) (hc : exactPM c e = true) :
    InWindow x c e ↔ InWindow c x e := by
  obtain ⟨xn, en, hxv, hev, hxa, hxs⟩ := exactPM_spec x e hx
  obtain ⟨cn, en2, hcv, hev2, hca, hcs⟩ := exactPM_spec c e hc
  have hen : en2 = en := by
    rw [hev] at hev2
    exact (F32Val.fin.inj hev2).symm
  subst hen
  simp only [InWindow, hxa, hxs, hca, hcs, hxv, hcv, F32Val.lt_fin_fin, decide_eq_true_eq]
  constructor
  · rintro ⟨h1, h2⟩
    exact ⟨by omega, by omega⟩
  · rintro ⟨h1, h2⟩
    exact ⟨by omega, by omega⟩

/-- The exact window read through the absolute difference. -/
theorem abs_lt_of_exactWindow (x c e : F32) (h : ExactWindow x c e) :
    |x.toRat - c.toRat| < e.toRat := by
  obtain ⟨-, -, -, h1, h2⟩ := h
  exact (window_iff_abs _ _ _).mp ⟨h1, h2⟩

end F32

/-- Unfolding of `Vector3.AlmostEqual` into the window tests of its three
components. -/
theorem Vector3.AlmostEqual_unfold_vec (a v : Vector3) (e : F32) :
    a.AlmostEqual v e = true ↔
      (F32.InWindow a.X v.X e ∧ F32.InWindow a.Y v.Y e ∧ F32.InWindow a.Z v.Z e) := by
  simp [Vector3.AlmostEqual, F32.InWindow, and_assoc]

/-- Unfolding of `Quaternion.AlmostEqual` into the window tests of its four
components. -/
theorem Quaternion.AlmostEqual_unfold_quat (a q : Quaternion) (e : F32) :
    a.AlmostEqual q e = true ↔
      (F32.InWindow a.X q.X e ∧ F32.InWindow a.Y q.Y e ∧ F32.InWindow a.Z q.Z e ∧
        F32.InWindow a.W q.W e) := by
  simp [Quaternion.AlmostEqual, F32.InWindow, and_assoc]

/-- A 32-bit unsigned value is at most `4294967295`. -/
theorem u32_le_max (n : Nat) (h : n < 2 ^ 32) : n ≤ 4294967295 := by omega

/-- A 32-bit unsigned value other than `4294967295` lies below it. -/
theorem u32_lt_max (n : Nat) (h : n < 2 ^ 32) (hne : n ≠ 4294967295) : n < 4294967295 := by
  omega

/-! ## Shared lemmas: sums and differences are `float`s -/

/-- A 24-bit significand times a power of two is left as it is by rounding. -/
theorem roundNat_mul_pow (q s : Nat) (hs : 1 ≤ s) (hq1 : 2 ^ 23 ≤ q) (hq2 : q < 2 ^ 24) :
    roundNat (q * 2 ^ s) = q * 2 ^ s := by
  have hP : 0 < 2 ^ s := by positivity
  have hsh : shiftOf (q * 2 ^ s) (q * 2 ^ s) = s := by
    apply shift_unique _ _ hs
    · calc 2 ^ (s + 23) = 2 ^ 23 * 2 ^ s := by ring
        _ ≤ q * 2 ^ s := Nat.mul_le_mul_right _ hq1
    · calc q * 2 ^ s < 2 ^ 24 * 2 ^ s := Nat.mul_lt_mul_of_pos_right hq2 hP
        _ = 2 ^ (s + 24) := by ring
  have e1 : q * 2 ^ s / 2 ^ s = q := Nat.mul_div_cancel _ hP
  have e2 : q * 2 ^ s % 2 ^ s = 0 := Nat.mul_mod_left _ _
  simp only [roundNat, hsh, e1, e2]
  have hne : ¬ (2 ^ s < 2 * 0 ∨ (2 * 0 = 2 ^ s ∧ q % 2 = 1)) := by omega
  rw [if_neg hne]

/-- Rounding a rounded number changes nothing. -/
theorem roundNat_idem (k : Nat) : roundNat (roundNat k) = roundNat k := by
  rcases shift_self_spec k with ⟨h24, -⟩ | ⟨h1, hlo, hhi⟩
  · rw [roundNat_small k h24, roundNat_small k h24]
  · have hP : 0 < 2 ^ shiftOf k k := by positivity
    have hq1 : 2 ^ 23 ≤ k / 2 ^ shiftOf k k := by
      rw [Nat.le_div_iff_mul_le hP]
      calc 2 ^ 23 * 2 ^ shiftOf k k = 2 ^ (shiftOf k k + 23) := by ring
        _ ≤ k := hlo
    have hq2 : k / 2 ^ shiftOf k k < 2 ^ 24 := by
      rw [Nat.div_lt_iff_lt_mul hP]
      calc k < 2 ^ (shiftOf k k + 24) := hhi
        _ = 2 ^ 24 * 2 ^ shiftOf k k := by ring
    have hdn : roundNat k = k / 2 ^ shiftOf k k * 2 ^ shiftOf k k ∨
        roundNat k = (k / 2 ^ shiftOf k k + 1) * 2 ^ shiftOf k k := by
      simp only [roundNat]
      split_ifs
      · right; rfl
      · left; rfl
    rcases hdn with hd | hu
    · rw [hd]
      exact roundNat_mul_pow _ _ h1 hq1 hq2
    · rw [hu]
      by_cases htop : k / 2 ^ shiftOf k k + 1 < 2 ^ 24
      · exact roundNat_mul_pow _ _ h1 (by omega) htop
      · have he : k / 2 ^ shiftOf k k + 1 = 2 ^ 24 := by omega
        rw [he]
        have e : 2 ^ 24 * 2 ^ shiftOf k k = 2 ^ 23 * 2 ^ (shiftOf k k + 1) := by ring
        rw [e]
        exact roundNat_mul_pow _ _ (by omega) (le_refl _) (by norm_num)

namespace F32Val

/-- A rounded value is a `float`. -/
theorem round_isFloat (n : Int) : (round n).isFloat = true := by
  unfold round
  split_ifs with h1 h2 h3
  · simp only [isFloat, Bool.and_eq_true, decide_eq_true_eq, Int.natAbs_ofNat]
    exact ⟨roundNat_idem _, h2⟩
  · rfl
  · simp only [isFloat, Bool.and_eq_true, decide_eq_true_eq, Int.natAbs_neg, Int.natAbs_ofNat]
    exact ⟨roundNat_idem _, h3⟩
  · rfl

/-- The `float` sum of two values is a `float`. -/
theorem add_isFloat (x y : F32Val) : (add x y).isFloat = true := by
  cases x <;> cases y <;> first | rfl | exact round_isFloat _

/-- The `float` difference of two values is a `float`. -/
theorem sub_isFloat (x y : F32Val) : (sub x y).isFloat = true := by
  cases x <;> cases y <;> first | rfl | exact round_isFloat _

/-- The `float` sum of two finite values rounds their exact sum: it lies
within the two neighbouring `float`s of the exact sum, above every `float`
below the exact sum and below every `float` above it. -/
theorem add_between (a b lo hi : Int) (hlo : (fin lo).isFloat = true)
    (hhi : (fin hi).isFloat = true) (h1 : lo ≤ a + b) (h2 : a + b ≤ hi) :
    le (fin lo) (add (fin a) (fin b)) = true ∧ le (add (fin a) (fin b)) (fin hi) = true := by
  have e1 := round_mono lo (a + b) h1
  have e2 := round_mono (a + b) hi h2
  rw [round_of_isFloat lo hlo] at e1
  rw [round_of_isFloat hi hhi] at e2
  exact ⟨e1, e2⟩

end F32Val

/-- Every epsilon has a double among the `float`s, and every window has its
two endpoints among them. -/
theorem F32.exists_sum_and_difference (c e : F32) :
    (∃ s : F32, s.val = c.add e) ∧ (∃ d : F32, d.val = c.sub e) :=
  ⟨⟨⟨_, F32Val.add_isFloat c.val e.val⟩, rfl⟩, ⟨⟨_, F32Val.sub_isFloat c.val e.val⟩, rfl⟩⟩

/-- Rounding at work on concrete values: `131072 + 2 ^ -10` and
`131072 - 2 ^ -10` round to `131072`; a tie goes to the even significand,
`2 ^ 24 + 1` down to `2 ^ 24` and `2 ^ 24 + 3` up to `2 ^ 24 + 4`; the largest
finite value is `(2 ^ 24 - 1) * 2 ^ 104`, and half a step above it the result
is infinite. -/
theorem F32Val.round_examples :
    round (2 ^ 166 + 2 ^ 139) = fin (2 ^ 166) ∧
    round (2 ^ 166 - 2 ^ 139) = fin (2 ^ 166) ∧
    round ((2 ^ 24 + 1) * 2 ^ 149) = fin (2 ^ 24 * 2 ^ 149) ∧
    round ((2 ^ 24 + 3) * 2 ^ 149) = fin ((2 ^ 24 + 4) * 2 ^ 149) ∧
    round ((2 ^ 24 - 1) * 2 ^ 253) = fin ((2 ^ 24 - 1) * 2 ^ 253) ∧
    round ((2 ^ 24 - 1) * 2 ^ 253 + 2 ^ 252 - 1) = fin ((2 ^ 24 - 1) * 2 ^ 253) ∧
    round ((2 ^ 24 - 1) * 2 ^ 253 + 2 ^ 252) = pinf ∧
    round (-((2 ^ 24 - 1) * 2 ^ 253 + 2 ^ 252)) = ninf ∧
    round 1 = fin 1 := by
  refine ⟨by decide, by decide, by decide, by decide, by decide, by decide, by decide,
    by decide, by decide⟩

/-- A number that rounding leaves as it is has no bits below its shift. -/
theorem roundNat_fixed_mod (f : Nat) (hf : roundNat f = f) :
    f % 2 ^ shiftOf f f = 0 := by
  have hP : 0 < 2 ^ shiftOf f f := by positivity
  have hdm := Nat.div_add_mod f (2 ^ shiftOf f f)
  have hr : f % 2 ^ shiftOf f f < 2 ^ shiftOf f f := Nat.mod_lt _ hP
  simp only [roundNat] at hf
  split_ifs at hf
  · rw [Nat.add_mul, Nat.mul_comm] at hf
    omega
  · rw [Nat.mul_comm] at hf
    omega

/-- Rounding goes to a nearest representable number: no number that rounding
leaves as it is lies closer to `k` than `roundNat k` does. -/
theorem roundNat_nearest (k f : Nat) (hf : roundNat f = f) :
    |(roundNat k : Int) - k| ≤ |(f : Int) - k| := by
  rcases shift_self_spec k with ⟨h24, -⟩ | ⟨h1, hlo, hhi⟩
  · rw [roundNat_small k h24]
    simp
  · have hP : 0 < 2 ^ shiftOf k k := by positivity
    have hdm := Nat.div_add_mod k (2 ^ shiftOf k k)
    have hr : k % 2 ^ shiftOf k k < 2 ^ shiftOf k k := Nat.mod_lt _ hP
    have hq1 : 2 ^ 23 ≤ k / 2 ^ shiftOf k k := by
      rw [Nat.le_div_iff_mul_le hP]
      calc 2 ^ 23 * 2 ^ shiftOf k k = 2 ^ (shiftOf k k + 23) := by ring
        _ ≤ k := hlo
    have hq2 : k / 2 ^ shiftOf k k < 2 ^ 24 := by
      rw [Nat.div_lt_iff_lt_mul hP]
      calc k < 2 ^ (shiftOf k k + 24) := hhi
        _ = 2 ^ 24 * 2 ^ shiftOf k k := by ring
    have hcomm : k / 2 ^ shiftOf k k * 2 ^ shiftOf k k =
        2 ^ shiftOf k k * (k / 2 ^ shiftOf k k) := Nat.mul_comm _ _
    have hup : (k / 2 ^ shiftOf k k + 1) * 2 ^ shiftOf k k =
        2 ^ shiftOf k k * (k / 2 ^ shiftOf k k) + 2 ^ shiftOf k k := by ring
    have hout : f ≤ 2 ^ shiftOf k k * (k / 2 ^ shiftOf k k) ∨
        2 ^ shiftOf k k * (k / 2 ^ shiftOf k k) + 2 ^ shiftOf k k ≤ f := by
      by_contra hcon
      push_neg at hcon
      obtain ⟨hc1, hc2⟩ := hcon
      have hsf : shiftOf f f = shiftOf k k := by
        apply shift_unique _ _ h1
        · have : 2 ^ (shiftOf k k + 23) ≤ 2 ^ shiftOf k k * (k / 2 ^ shiftOf k k) := by
            calc 2 ^ (shiftOf k k + 23) = 2 ^ shiftOf k k * 2 ^ 23 := by ring
              _ ≤ 2 ^ shiftOf k k * (k / 2 ^ shiftOf k k) := Nat.mul_le_mul_left _ hq1
          omega
        · have : 2 ^ shiftOf k k * (k / 2 ^ shiftOf k k) + 2 ^ shiftOf k k ≤
              2 ^ (shiftOf k k + 24) := by
            calc 2 ^ shiftOf k k * (k / 2 ^ shiftOf k k) + 2 ^ shiftOf k k
                = 2 ^ shiftOf k k * (k / 2 ^ shiftOf k k + 1) := by ring
              _ ≤ 2 ^ shiftOf k k * 2 ^ 24 := Nat.mul_le_mul_left _ (by omega)
              _ = 2 ^ (shiftOf k k + 24) := by ring
          omega
      have hf0 := roundNat_fixed_mod f hf
      rw [hsf] at hf0
      have hfm := Nat.div_add_mod f (2 ^ shiftOf k k)
      rw [hf0, Nat.add_zero] at hfm
      rw [← hfm] at hc1 hc2
      have l1 : k / 2 ^ shiftOf k k < f / 2 ^ shiftOf k k :=
        Nat.lt_of_mul_lt_mul_left hc1
      have l2 : f / 2 ^ shiftOf k k < k / 2 ^ shiftOf k k + 1 := by
        apply Nat.lt_of_mul_lt_mul_left (a := 2 ^ shiftOf k k)
        calc 2 ^ shiftOf k k * (f / 2 ^ shiftOf k k)
            < 2 ^ shiftOf k k * (k / 2 ^ shiftOf k k) + 2 ^ shiftOf k k := hc2
          _ = 2 ^ shiftOf k k * (k / 2 ^ shiftOf k k + 1) := by ring
      omega
    have hval : roundNat k = 2 ^ shiftOf k k * (k / 2 ^ shiftOf k k) ∨
        (roundNat k = 2 ^ shiftOf k k * (k / 2 ^ shiftOf k k) + 2 ^ shiftOf k k ∧
          2 ^ shiftOf k k ≤ 2 * (k % 2 ^ shiftOf k k)) := by
      simp only [roundNat]
      split_ifs with hc
      · right
        exact ⟨hup, by omega⟩
      · left
        exact hcomm
    have hdown : roundNat k = 2 ^ shiftOf k k * (k / 2 ^ shiftOf k k) →
        2 * (k % 2 ^ shiftOf k k) ≤ 2 ^ shiftOf k k := by
      intro hd
      by_contra hcon
      have hc : 2 ^ shiftOf k k < 2 * (k % 2 ^ shiftOf k k) ∨
          (2 * (k % 2 ^ shiftOf k k) = 2 ^ shiftOf k k ∧ k / 2 ^ shiftOf k k % 2 = 1) := by
        left
        omega
      simp only [roundNat] at hd
      rw [if_pos hc, hup] at hd
      omega
    generalize roundNat k = R at hval hdown ⊢
    generalize 2 ^ shiftOf k k * (k / 2 ^ shiftOf k k) = A at hdm hout hval hdown
    generalize k % 2 ^ shiftOf k k = r at hdm hr hval hdown
    generalize 2 ^ shiftOf k k = P at hdm hr hout hval hdown hP
    rw [abs_le]
    rcases hout with ho | ho
    · rw [abs_of_nonpos (by omega)]
      rcases hval with hv | ⟨hv, hge⟩
      · have := hdown hv
        constructor <;> omega
      · constructor <;> omega
    · rw [abs_of_nonneg (by omega)]
      rcases hval with hv | ⟨hv, hge⟩
      · have := hdown hv
        constructor <;> omega
      · constructor <;> omega

/-- The values of the literals the examples use, read as exact rationals. -/
theorem F32.dyadic_values :
    (F32.dyadic 0 0).toRat = 0 ∧ (F32.dyadic 1 0).toRat = 1 ∧ (F32.dyadic (-1) 0).toRat = -1 ∧
    (F32.dyadic 2 0).toRat = 2 ∧ (F32.dyadic 3 0).toRat = 3 ∧ (F32.dyadic 7 0).toRat = 7 ∧
    (F32.dyadic (-5) 0).toRat = -5 ∧
    (F32.dyadic 1 (-1)).toRat = 1 / 2 ∧ (F32.dyadic 3 (-1)).toRat = 3 / 2 ∧
    (F32.dyadic (-1) (-2)).toRat = -1 / 4 ∧ (F32.dyadic 3 (-2)).toRat = 3 / 4 ∧
    (F32.dyadic 5 (-2)).toRat = 5 / 4 ∧
    (F32.dyadic 1 17).toRat = 131072 ∧ (F32.dyadic 1 (-7)).toRat = 1 / 128 ∧
    (F32.dyadic 1 (-10)).toRat = 1 / 1024 ∧ (F32.dyadic 1 (-26)).toRat = 1 / 67108864 ∧
    (F32.dyadic 1 (-30)).toRat = 1 / 1073741824 ∧
    (F32.dyadic 15099494 (-24)).toRat = 15099494 / 16777216 := by
  have e1 : (F32.dyadic 0 0).val = F32Val.fin 0 := by decide
  have e2 : (F32.dyadic 1 0).val = F32Val.fin (2 ^ 149) := by decide
  have e3 : (F32.dyadic (-1) 0).val = F32Val.fin (-2 ^ 149) := by decide
  have e4 : (F32.dyadic 2 0).val = F32Val.fin (2 * 2 ^ 149) := by decide
  have e5 : (F32.dyadic 3 0).val = F32Val.fin (3 * 2 ^ 149) := by decide
  have e6 : (F32.dyadic 7 0).val = F32Val.fin (7 * 2 ^ 149) := by decide
  have e7 : (F32.dyadic (-5) 0).val = F32Val.fin (-5 * 2 ^ 149) := by decide
  have e8 : (F32.dyadic 1 (-1)).val = F32Val.fin (2 ^ 148) := by decide
  have e9 : (F32.dyadic 3 (-1)).val = F32Val.fin (3 * 2 ^ 148) := by decide
  have e10 : (F32.dyadic (-1) (-2)).val = F32Val.fin (-2 ^ 147) := by decide
  have e11 : (F32.dyadic 3 (-2)).val = F32Val.fin (3 * 2 ^ 147) := by decide
  have e12 : (F32.dyadic 5 (-2)).val = F32Val.fin (5 * 2 ^ 147) := by decide
  have e13 : (F32.dyadic 1 17).val = F32Val.fin (2 ^ 166) := by decide
  have e14 : (F32.dyadic 1 (-7)).val = F32Val.fin (2 ^ 142) := by decide
  have e15 : (F32.dyadic 1 (-10)).val = F32Val.fin (2 ^ 139) := by decide
  have e16 : (F32.dyadic 1 (-26)).val = F32Val.fin (2 ^ 123) := by decide
  have e17 : (F32.dyadic 1 (-30)).val = F32Val.fin (2 ^ 119) := by decide
  have e18 : (F32.dyadic 15099494 (-24)).val = F32Val.fin (15099494 * 2 ^ 125) := by decide
  simp only [F32.toRat, e1, e2, e3, e4, e5, e6, e7, e8, e9, e10, e11, e12, e13, e14, e15, e16,
    e17, e18, F32Val.toRat]
  norm_num

/-! ## Vector3.AlmostEqual -/

/-- C1, as stated, fails: with epsilon `2 ^ -10 > 0` the vector
`(131072, 0, 0)` compared with itself lies inside the exact window on every
axis, yet `AlmostEqual` is false, because `131072 - 2 ^ -10` and
`131072 + 2 ^ -10` both round to `131072`. -/
theorem Vector3.AlmostEqual_window_not_sufficient :
    F32Val.lt F32.zero.val (F32.dyadic 1 (-10)).val = true ∧
    (F32.ExactWindow (exampleVector (1, 17) (0, 0) (0, 0)).X
        (exampleVector (1, 17) (0, 0) (0, 0)).X (F32.dyadic 1 (-10)) ∧
     F32.ExactWindow (exampleVector (1, 17) (0, 0) (0, 0)).Y
        (exampleVector (1, 17) (0, 0) (0, 0)).Y (F32.dyadic 1 (-10)) ∧
     F32.ExactWindow (exampleVector (1, 17) (0, 0) (0, 0)).Z
        (exampleVector (1, 17) (0, 0) (0, 0)).Z (F32.dyadic 1 (-10))) ∧
    (exampleVector (1, 17) (0, 0) (0, 0)).AlmostEqual (exampleVector (1, 17) (0, 0) (0, 0))
      (F32.dyadic 1 (-10)) = false := by
  have he : (F32.dyadic 1 (-10)).val = F32Val.fin (2 ^ 139) := by decide
  have hx : (F32.dyadic 1 17).val = F32Val.fin (2 ^ 166) := by decide
  have h0 : (F32.dyadic 0 0).val = F32Val.fin 0 := by decide
  refine ⟨by decide, ⟨?_, ?_, ?_⟩, by decide⟩ <;>
    simp only [exampleVector, F32.ExactWindow, F32.toRat, he, hx, h0, F32Val.toRat,
      F32Val.isFinite] <;>
    norm_num

/-- C1, amended: for every pair of vectors and every finite positive epsilon,
whenever `AlmostEqual` is true each of the three axes lies strictly inside the
exact window `v.c - epsilon < a.c < v.c + epsilon`, that is
`|a.c - v.c| < epsilon`, the components read as exact rationals; and where
`v.c - epsilon` and `v.c + epsilon` are computed without rounding on every
axis, `AlmostEqual` is true exactly when each axis lies inside that window. -/
theorem Vector3.AlmostEqual_per_axis_window (a v : Vector3) (epsilon : F32)
    (_hpos : F32Val.lt F32.zero.val epsilon.val = true)
    (hfin : epsilon.val.isFinite = true) :
    (a.AlmostEqual v epsilon = true →
      (F32.ExactWindow a.X v.X epsilon ∧ F32.ExactWindow a.Y v.Y epsilon ∧
        F32.ExactWindow a.Z v.Z epsilon) ∧
      (|a.X.toRat - v.X.toRat| < epsilon.toRat ∧ |a.Y.toRat - v.Y.toRat| < epsilon.toRat ∧
        |a.Z.toRat - v.Z.toRat| < epsilon.toRat)) ∧
    (v.exactPM epsilon = true →
      (a.AlmostEqual v epsilon = true ↔
        (F32.ExactWindow a.X v.X epsilon ∧ F32.ExactWindow a.Y v.Y epsilon ∧
          F32.ExactWindow a.Z v.Z epsilon))) := by
  have hfwd : a.AlmostEqual v epsilon = true →
      (F32.ExactWindow a.X v.X epsilon ∧ F32.ExactWindow a.Y v.Y epsilon ∧
        F32.ExactWindow a.Z v.Z epsilon) := by
    intro h
    rw [Vector3.AlmostEqual_unfold_vec] at h
    exact ⟨F32.exactWindow_of_inWindow _ _ _ hfin h.1,
      F32.exactWindow_of_inWindow _ _ _ hfin h.2.1,
      F32.exactWindow_of_inWindow _ _ _ hfin h.2.2⟩
  refine ⟨fun h => ⟨hfwd h, ?_⟩, fun hex => ⟨hfwd, fun hw => ?_⟩⟩
  · obtain ⟨hx, hy, hz⟩ := hfwd h
    exact ⟨F32.abs_lt_of_exactWindow _ _ _ hx, F32.abs_lt_of_exactWindow _ _ _ hy,
      F32.abs_lt_of_exactWindow _ _ _ hz⟩
  · simp only [Vector3.exactPM, Bool.and_eq_true] at hex
    rw [Vector3.AlmostEqual_unfold_vec]
    exact ⟨F32.inWindow_of_exactWindow _ _ _ hex.1.1 hw.1,
      F32.inWindow_of_exactWindow _ _ _ hex.1.2 hw.2.1,
      F32.inWindow_of_exactWindow _ _ _ hex.2 hw.2.2⟩

/-- C1 amended, at a concrete input: `(1/2, -1/4, 0)` is accepted against the
origin with epsilon `1`, and lies within `1` of it on every axis. -/
theorem Vector3.AlmostEqual_per_axis_window_witness :
    F32Val.lt F32.zero.val (F32.dyadic 1 0).val = true ∧
    (F32.dyadic 1 0).val.isFinite = true ∧
    (exampleVector (0, 0) (0, 0) (0, 0)).exactPM (F32.dyadic 1 0) = true ∧
    (exampleVector (1, -1) (-1, -2) (0, 0)).AlmostEqual (exampleVector (0, 0) (0, 0) (0, 0))
      (F32.dyadic 1 0) = true ∧
    |(exampleVector (1, -1) (-1, -2) (0, 0)).Y.toRat -
        (exampleVector (0, 0) (0, 0) (0, 0)).Y.toRat| < (F32.dyadic 1 0).toRat ∧
    F32.ExactWindow (exampleVector (1, -1) (-1, -2) (0, 0)).Y
      (exampleVector (0, 0) (0, 0) (0, 0)).Y (F32.dyadic 1 0) :=
  ⟨by decide, by decide, by decide, by decide,
   ((Vector3.AlmostEqual_per_axis_window (exampleVector (1, -1) (-1, -2) (0, 0))
      (exampleVector (0, 0) (0, 0) (0, 0)) (F32.dyadic 1 0) (by decide) (by decide)).1
      (by decide)).2.2.1,
   (((Vector3.AlmostEqual_per_axis_window (exampleVector (1, -1) (-1, -2) (0, 0))
      (exampleVector (0, 0) (0, 0) (0, 0)) (F32.dyadic 1 0) (by decide) (by decide)).2
      (by decide)).mp (by decide)).2.1⟩

/-- C2: when on at least one axis the component sits exactly on
`v.c + epsilon` or on `v.c - epsilon`, `AlmostEqual` is false whatever the
other axes are. -/
theorem Vector3.AlmostEqual_false_of_boundary (a v : Vector3) (epsilon : F32)
    (_h : F32Val.lt F32.zero.val epsilon.val = true)
    (hb : F32.OnBoundary a.X v.X epsilon ∨ F32.OnBoundary a.Y v.Y epsilon ∨
          F32.OnBoundary a.Z v.Z epsilon) :
    a.AlmostEqual v epsilon = false := by
  rw [← Bool.not_eq_true, Vector3.AlmostEqual_unfold_vec]
  rintro ⟨hx, hy, hz⟩
  rcases hb with h | h | h
  · exact F32.not_inWindow_of_onBoundary _ _ _ h hx
  · exact F32.not_inWindow_of_onBoundary _ _ _ h hy
  · exact F32.not_inWindow_of_onBoundary _ _ _ h hz

/-- C2 at a concrete input: `(7, 3, -5)` against `(0, 2, 0)` with epsilon
`1` sits exactly on the upper boundary `2 + 1` of the Y axis. -/
theorem Vector3.AlmostEqual_false_of_boundary_witness :
    F32Val.lt F32.zero.val (F32.dyadic 1 0).val = true ∧
    (exampleVector (7, 0) (3, 0) (-5, 0)).Y.toRat =
      (exampleVector (0, 0) (2, 0) (0, 0)).Y.toRat + (F32.dyadic 1 0).toRat ∧
    (exampleVector (7, 0) (3, 0) (-5, 0)).AlmostEqual (exampleVector (0, 0) (2, 0) (0, 0))
      (F32.dyadic 1 0) = false :=
  have h3 : (F32.dyadic 3 0).val = F32Val.fin (3 * 2 ^ 149) := by decide
  have h2 : (F32.dyadic 2 0).val = F32Val.fin (2 * 2 ^ 149) := by decide
  have h1 : (F32.dyadic 1 0).val = F32Val.fin (2 ^ 149) := by decide
  have hq : (exampleVector (7, 0) (3, 0) (-5, 0)).Y.toRat =
      (exampleVector (0, 0) (2, 0) (0, 0)).Y.toRat + (F32.dyadic 1 0).toRat := by
    simp only [exampleVector, F32.toRat, h3, h2, h1, F32Val.toRat]
    norm_num
  ⟨by decide, hq,
   Vector3.AlmostEqual_false_of_boundary (exampleVector (7, 0) (3, 0) (-5, 0))
     (exampleVector (0, 0) (2, 0) (0, 0)) (F32.dyadic 1 0) (by decide)
     (Or.inr (Or.inl (Or.inr (Or.inr ⟨by decide, by decide, by decide, Or.inl hq⟩))))⟩

/-- C3, as stated, fails: around the origin with epsilon `1` the X-axis
endpoints `0 - 1 = -1` and `0 + 1 = 1` are both rejected, so it is not the
case that exactly one of them is accepted. -/
theorem Vector3.AlmostEqual_endpoints_not_half_open :
    ((F32.dyadic (-1) 0).val = F32.zero.sub (F32.dyadic 1 0) ∧
      (F32.dyadic 1 0).val = F32.zero.add (F32.dyadic 1 0)) ∧
    (exampleVector (-1, 0) (0, 0) (0, 0)).AlmostEqual (exampleVector (0, 0) (0, 0) (0, 0))
      (F32.dyadic 1 0) = false ∧
    (exampleVector (1, 0) (0, 0) (0, 0)).AlmostEqual (exampleVector (0, 0) (0, 0) (0, 0))
      (F32.dyadic 1 0) = false ∧
    ¬ Xor' ((exampleVector (-1, 0) (0, 0) (0, 0)).AlmostEqual
              (exampleVector (0, 0) (0, 0) (0, 0)) (F32.dyadic 1 0) = true)
           ((exampleVector (1, 0) (0, 0) (0, 0)).AlmostEqual
              (exampleVector (0, 0) (0, 0) (0, 0)) (F32.dyadic 1 0) = true) := by
  have h1 : (exampleVector (-1, 0) (0, 0) (0, 0)).AlmostEqual
      (exampleVector (0, 0) (0, 0) (0, 0)) (F32.dyadic 1 0) = false := by decide
  have h2 : (exampleVector (1, 0) (0, 0) (0, 0)).AlmostEqual
      (exampleVector (0, 0) (0, 0) (0, 0)) (F32.dyadic 1 0) = false := by decide
  refine ⟨⟨by decide, by decide⟩, h1, h2, ?_⟩
  rw [h1, h2]
  simp [Xor']

/-- C3, amended: the per-axis window is open at both ends. For every `v` and
every positive epsilon, with the other two axes equal to those of `v`, a
component that is the endpoint `v.c - epsilon` or the endpoint `v.c + epsilon`
is rejected on the axis under test. -/
theorem Vector3.AlmostEqual_open_band (v : Vector3) (epsilon : F32)
    (_h : F32Val.lt F32.zero.val epsilon.val = true) :
    (∀ c : F32, F32.OnBoundary c v.X epsilon →
      (Vector3.mk c v.Y v.Z).AlmostEqual v epsilon = false) ∧
    (∀ c : F32, F32.OnBoundary c v.Y epsilon →
      (Vector3.mk v.X c v.Z).AlmostEqual v epsilon = false) ∧
    (∀ c : F32, F32.OnBoundary c v.Z epsilon →
      (Vector3.mk v.X v.Y c).AlmostEqual v epsilon = false) := by
  refine ⟨?_, ?_, ?_⟩ <;> intro c hc <;>
    rw [← Bool.not_eq_true, Vector3.AlmostEqual_unfold_vec] <;>
    rintro ⟨hx, hy, hz⟩
  · exact F32.not_inWindow_of_onBoundary _ _ _ hc hx
  · exact F32.not_inWindow_of_onBoundary _ _ _ hc hy
  · exact F32.not_inWindow_of_onBoundary _ _ _ hc hz

/-- C3 amended, at a concrete input: around `(1, 2, 3)` with epsilon `1/2`
the X-axis endpoints `1 - 1/2` and `1 + 1/2` are both rejected. -/
theorem Vector3.AlmostEqual_open_band_witness :
    F32Val.lt F32.zero.val (F32.dyadic 1 (-1)).val = true ∧
    ((F32.dyadic 1 (-1)).val = (F32.dyadic 1 0).sub (F32.dyadic 1 (-1)) ∧
      (F32.dyadic 3 (-1)).val = (F32.dyadic 1 0).add (F32.dyadic 1 (-1))) ∧
    (exampleVector (1, -1) (2, 0) (3, 0)).AlmostEqual (exampleVector (1, 0) (2, 0) (3, 0))
      (F32.dyadic 1 (-1)) = false ∧
    (exampleVector (3, -1) (2, 0) (3, 0)).AlmostEqual (exampleVector (1, 0) (2, 0) (3, 0))
      (F32.dyadic 1 (-1)) = false :=
  ⟨by decide, ⟨by decide, by decide⟩,
   (Vector3.AlmostEqual_open_band (exampleVector (1, 0) (2, 0) (3, 0)) (F32.dyadic 1 (-1))
      (by decide)).1 (F32.dyadic 1 (-1)) (Or.inr (Or.inl (by decide))),
   (Vector3.AlmostEqual_open_band (exampleVector (1, 0) (2, 0) (3, 0)) (F32.dyadic 1 (-1))
      (by decide)).1 (F32.dyadic 3 (-1)) (Or.inl (by decide))⟩

/-! ## Quaternion.AlmostEqual -/

/-- C4, as stated, fails: with epsilon `2 ^ -26 > 0` the quaternion
`(0, 0, 0, 1)` compared with itself lies inside the exact window on all four
components, yet `AlmostEqual` is false, because `1 - 2 ^ -26` and
`1 + 2 ^ -26` both round to `1`. -/
theorem Quaternion.AlmostEqual_window_not_sufficient_quat :
    F32Val.lt F32.zero.val (F32.dyadic 1 (-26)).val = true ∧
    (F32.ExactWindow (exampleRotation (1, 0)).X (exampleRotation (1, 0)).X
        (F32.dyadic 1 (-26)) ∧
     F32.ExactWindow (exampleRotation (1, 0)).Y (exampleRotation (1, 0)).Y
        (F32.dyadic 1 (-26)) ∧
     F32.ExactWindow (exampleRotation (1, 0)).Z (exampleRotation (1, 0)).Z
        (F32.dyadic 1 (-26)) ∧
     F32.ExactWindow (exampleRotation (1, 0)).W (exampleRotation (1, 0)).W
        (F32.dyadic 1 (-26))) ∧
    (exampleRotation (1, 0)).AlmostEqual (exampleRotation (1, 0)) (F32.dyadic 1 (-26))
      = false := by
  have he : (F32.dyadic 1 (-26)).val = F32Val.fin (2 ^ 123) := by decide
  have hw : (F32.dyadic 1 0).val = F32Val.fin (2 ^ 149) := by decide
  have h0 : F32.zero.val = F32Val.fin 0 := by decide
  refine ⟨by decide, ⟨?_, ?_, ?_, ?_⟩, by decide⟩ <;>
    simp only [exampleRotation, F32.ExactWindow, F32.toRat, he, hw, h0, F32Val.toRat,
      F32Val.isFinite] <;>
    norm_num

/-- C4, amended: for every pair of quaternions and every finite positive
epsilon, whenever `AlmostEqual` is true each of the four components X, Y, Z, W
of the operands as given (nothing is normalised) lies strictly inside the
exact window `q.c - epsilon < a.c < q.c + epsilon`, that is
`|a.c - q.c| < epsilon`, the components read as exact rationals; where
`q.c - epsilon` and `q.c + epsilon` are computed without rounding on every
component, `AlmostEqual` is true exactly when each component lies inside that
window; and the test on X, Y, Z is the one `Vector3.AlmostEqual` makes. -/
theorem Quaternion.AlmostEqual_per_component_window (a q : Quaternion) (epsilon : F32)
    (_hpos : F32Val.lt F32.zero.val epsilon.val = true)
    (hfin : epsilon.val.isFinite = true) :
    (a.AlmostEqual q epsilon = true →
      (F32.ExactWindow a.X q.X epsilon ∧ F32.ExactWindow a.Y q.Y epsilon ∧
        F32.ExactWindow a.Z q.Z epsilon ∧ F32.ExactWindow a.W q.W epsilon) ∧
      (|a.X.toRat - q.X.toRat| < epsilon.toRat ∧ |a.Y.toRat - q.Y.toRat| < epsilon.toRat ∧
        |a.Z.toRat - q.Z.toRat| < epsilon.toRat ∧
        |a.W.toRat - q.W.toRat| < epsilon.toRat)) ∧
    (q.exactPM epsilon = true →
      (a.AlmostEqual q epsilon = true ↔
        (F32.ExactWindow a.X q.X epsilon ∧ F32.ExactWindow a.Y q.Y epsilon ∧
          F32.ExactWindow a.Z q.Z epsilon ∧ F32.ExactWindow a.W q.W epsilon))) ∧
    (a.AlmostEqual q epsilon = true ↔
      ((Vector3.mk a.X a.Y a.Z).AlmostEqual (Vector3.mk q.X q.Y q.Z) epsilon = true ∧
        F32.InWindow a.W q.W epsilon)) := by
  have hfwd : a.AlmostEqual q epsilon = true →
      (F32.ExactWindow a.X q.X epsilon ∧ F32.ExactWindow a.Y q.Y epsilon ∧
        F32.ExactWindow a.Z q.Z epsilon ∧ F32.ExactWindow a.W q.W epsilon) := by
    intro h
    rw [Quaternion.AlmostEqual_unfold_quat] at h
    exact ⟨F32.exactWindow_of_inWindow _ _ _ hfin h.1,
      F32.exactWindow_of_inWindow _ _ _ hfin h.2.1,
      F32.exactWindow_of_inWindow _ _ _ hfin h.2.2.1,
      F32.exactWindow_of_inWindow _ _ _ hfin h.2.2.2⟩
  refine ⟨fun h => ⟨hfwd h, ?_⟩, fun hex => ⟨hfwd, fun hw => ?_⟩, ?_⟩
  · obtain ⟨hx, hy, hz, hw⟩ := hfwd h
    exact ⟨F32.abs_lt_of_exactWindow _ _ _ hx, F32.abs_lt_of_exactWindow _ _ _ hy,
      F32.abs_lt_of_exactWindow _ _ _ hz, F32.abs_lt_of_exactWindow _ _ _ hw⟩
  · simp only [Quaternion.exactPM, Bool.and_eq_true] at hex
    rw [Quaternion.AlmostEqual_unfold_quat]
    exact ⟨F32.inWindow_of_exactWindow _ _ _ hex.1.1.1 hw.1,
      F32.inWindow_of_exactWindow _ _ _ hex.1.1.2 hw.2.1,
      F32.inWindow_of_exactWindow _ _ _ hex.1.2 hw.2.2.1,
      F32.inWindow_of_exactWindow _ _ _ hex.2 hw.2.2.2⟩
  · rw [Quaternion.AlmostEqual_unfold_quat, Vector3.AlmostEqual_unfold_vec]
    tauto

/-- C4 amended, at a concrete input, epsilon `1/2`: `(0, 0, 0, 5/4)` is
accepted against `(0, 0, 0, 1)` and its W component lies within `1/2` of
`1`, the operands being compared as given, unnormalised. -/
theorem Quaternion.AlmostEqual_per_component_window_witness :
    F32Val.lt F32.zero.val (F32.dyadic 1 (-1)).val = true ∧
    (F32.dyadic 1 (-1)).val.isFinite = true ∧
    (exampleRotation (1, 0)).exactPM (F32.dyadic 1 (-1)) = true ∧
    (exampleRotation (5, -2)).AlmostEqual (exampleRotation (1, 0)) (F32.dyadic 1 (-1))
      = true ∧
    |(exampleRotation (5, -2)).W.toRat - (exampleRotation (1, 0)).W.toRat|
      < (F32.dyadic 1 (-1)).toRat :=
  ⟨by decide, by decide, by decide, by decide,
   ((Quaternion.AlmostEqual_per_component_window (exampleRotation (5, -2))
      (exampleRotation (1, 0)) (F32.dyadic 1 (-1)) (by decide) (by decide)).1
      (by decide)).2.2.2.2⟩

/-! ## The per-axis test against the Euclidean distance -/

/-- C5: `Vector3.AlmostEqual` is not a Euclidean-distance test: for some pair
of vectors and some positive epsilon it is true although the squared Euclidean
distance exceeds epsilon squared. The vector whose three components are the
`float` nearest to `0.9` is accepted against the origin with epsilon `1`, at
a squared distance above `2.4`. -/
theorem Vector3.AlmostEqual_not_euclidean :
    ∃ a v : Vector3, ∃ epsilon : F32,
      F32Val.lt F32.zero.val epsilon.val = true ∧ a.isFinite = true ∧ v.isFinite = true ∧
      epsilon.val.isFinite = true ∧
      a.AlmostEqual v epsilon = true ∧ epsilon.toRat ^ 2 < Vector3.distSq a v ∧
      (9 / 10 - 1 / 10 ^ 7) * epsilon.toRat < a.X.toRat - v.X.toRat ∧
      (9 / 10 - 1 / 10 ^ 7) * epsilon.toRat < a.Y.toRat - v.Y.toRat ∧
      (9 / 10 - 1 / 10 ^ 7) * epsilon.toRat < a.Z.toRat - v.Z.toRat := by
  have h9 : (F32.dyadic 15099494 (-24)).val = F32Val.fin (15099494 * 2 ^ 125) := by decide
  have h0 : (F32.dyadic 0 0).val = F32Val.fin 0 := by decide
  have h1 : (F32.dyadic 1 0).val = F32Val.fin (2 ^ 149) := by decide
  refine ⟨exampleVector (15099494, -24) (15099494, -24) (15099494, -24),
    exampleVector (0, 0) (0, 0) (0, 0), F32.dyadic 1 0, by decide, by decide, by decide,
    by decide, by decide, ?_, ?_, ?_, ?_⟩ <;>
    simp only [Vector3.distSq, exampleVector, F32.toRat, h9, h0, h1, F32Val.toRat] <;>
    norm_num

/-! ## Constructors and conversions -/

/-- C6: `EntityProperties(id, startTransform)` yields, whatever the storage
held, a record whose ID is `id`, whose Position is the transform's origin,
whose Rotation is the transform's rotation, and whose Velocity, Acceleration
and AngularVelocity are the zero vector, `F32.zero` being the value `0`. -/
theorem EntityProperties.ctor_entity_fields (raw : EntityProperties) (id : IDTYPE)
    (startTransform : btTransform) :
    (EntityProperties.ctor raw id startTransform).ID = id ∧
    (EntityProperties.ctor raw id startTransform).Position =
      Vector3.mk startTransform.getOrigin.getX startTransform.getOrigin.getY
        startTransform.getOrigin.getZ ∧
    (EntityProperties.ctor raw id startTransform).Rotation =
      Quaternion.mk startTransform.getRotation.getX startTransform.getRotation.getY
        startTransform.getRotation.getZ startTransform.getRotation.getW ∧
    (EntityProperties.ctor raw id startTransform).Velocity =
      Vector3.mk F32.zero F32.zero F32.zero ∧
    (EntityProperties.ctor raw id startTransform).Acceleration =
      Vector3.mk F32.zero F32.zero F32.zero ∧
    (EntityProperties.ctor raw id startTransform).AngularVelocity =
      Vector3.mk F32.zero F32.zero F32.zero ∧
    F32.zero.val = F32Val.fin 0 :=
  ⟨rfl, rfl, rfl, rfl, rfl, rfl, by decide⟩

/-- C7: the default constructor produces the origin, `X = 0`, `Y = 0`,
`Z = 0`, `F32.zero` being the value `0`, and `Vector3(x, y, z)` produces exactly `X = x`, `Y = y`, `Z = z`,
whatever the storage held. -/
theorem Vector3.ctor_vector_fields (raw : Vector3) (x y z : F32) :
    ((Vector3.ctor raw).X = F32.zero ∧ (Vector3.ctor raw).Y = F32.zero ∧
      (Vector3.ctor raw).Z = F32.zero ∧ F32.zero.val = F32Val.fin 0) ∧
    ((Vector3.ctor_xyz raw x y z).X = x ∧ (Vector3.ctor_xyz raw x y z).Y = y ∧
      (Vector3.ctor_xyz raw x y z).Z = z) :=
  ⟨⟨rfl, rfl, rfl, by decide⟩, ⟨rfl, rfl, rfl⟩⟩

/-- C8: converting to the engine-native type and assigning the result back is
a lossless round trip: for every `Vector3 v` and every target, assigning
`v.GetBtVector3()` gives `v`'s X, Y, Z, and for every `Quaternion q` and every
target, assigning `q.GetBtQuaternion()` gives `q`'s X, Y, Z, W. -/
theorem bt_round_trip (tv v : Vector3) (tq q : Quaternion) :
    ((tv.assign_btVector3 v.GetBtVector3).X = v.X ∧
     (tv.assign_btVector3 v.GetBtVector3).Y = v.Y ∧
     (tv.assign_btVector3 v.GetBtVector3).Z = v.Z) ∧
    ((tq.assign_btQuaternion q.GetBtQuaternion).X = q.X ∧
     (tq.assign_btQuaternion q.GetBtQuaternion).Y = q.Y ∧
     (tq.assign_btQuaternion q.GetBtQuaternion).Z = q.Z ∧
     (tq.assign_btQuaternion q.GetBtQuaternion).W = q.W) :=
  ⟨⟨rfl, rfl, rfl⟩, ⟨rfl, rfl, rfl, rfl⟩⟩

/-! ## Shape kinds and reserved identifiers -/

/-- C9: the shape kinds are a closed set of exactly seven, numbered
avatar=0, box=1, cone=2, cylinder=3, sphere=4, mesh=5, hull=6; the numbering
is injective, its image is exactly `0..6`, reading back the number of a kind
returns that kind, and a number reads back as no kind exactly when it lies
outside `0..6`. -/
theorem ShapeData.PhysicsShapeType.numbering_closed :
    (Fintype.card ShapeData.PhysicsShapeType = 7 ∧
      ∀ k : ShapeData.PhysicsShapeType, k ∈ ShapeData.PhysicsShapeType.enumerators) ∧
    (ShapeData.PhysicsShapeType.SHAPE_AVATAR.value = 0 ∧
     ShapeData.PhysicsShapeType.SHAPE_BOX.value = 1 ∧
     ShapeData.PhysicsShapeType.SHAPE_CONE.value = 2 ∧
     ShapeData.PhysicsShapeType.SHAPE_CYLINDER.value = 3 ∧
     ShapeData.PhysicsShapeType.SHAPE_SPHERE.value = 4 ∧
     ShapeData.PhysicsShapeType.SHAPE_MESH.value = 5 ∧
     ShapeData.PhysicsShapeType.SHAPE_HULL.value = 6) ∧
    Function.Injective ShapeData.PhysicsShapeType.value ∧
    (∀ n : Int, (∃ k : ShapeData.PhysicsShapeType, k.value = n) ↔ (0 ≤ n ∧ n ≤ 6)) ∧
    (∀ k : ShapeData.PhysicsShapeType,
      ShapeData.PhysicsShapeType.ofValue? k.value = some k) ∧
    (∀ n : Int, ShapeData.PhysicsShapeType.ofValue? n = none ↔ (n < 0 ∨ 6 < n)) := by
  refine ⟨⟨rfl, ?_⟩, ⟨rfl, rfl, rfl, rfl, rfl, rfl, rfl⟩, ?_, ?_, ?_, ?_⟩
  · intro k
    cases k <;> simp [ShapeData.PhysicsShapeType.enumerators]
  · intro a b hab
    cases a <;> cases b <;> simp [ShapeData.PhysicsShapeType.value] at hab ⊢
  · intro n
    constructor
    · rintro ⟨k, rfl⟩
      cases k <;> simp [ShapeData.PhysicsShapeType.value]
    · rintro ⟨h0, h6⟩
      interval_cases n
      · exact ⟨.SHAPE_AVATAR, rfl⟩
      · exact ⟨.SHAPE_BOX, rfl⟩
      · exact ⟨.SHAPE_CONE, rfl⟩
      · exact ⟨.SHAPE_CYLINDER, rfl⟩
      · exact ⟨.SHAPE_SPHERE, rfl⟩
      · exact ⟨.SHAPE_MESH, rfl⟩
      · exact ⟨.SHAPE_HULL, rfl⟩
  · intro k
    cases k <;> rfl
  · intro n
    constructor
    · intro hnone
      by_contra hin
      have h0 : 0 ≤ n := by omega
      have h6 : n ≤ 6 := by omega
      interval_cases n <;> simp [ShapeData.PhysicsShapeType.ofValue?,
        ShapeData.PhysicsShapeType.enumerators, ShapeData.PhysicsShapeType.value] at hnone
    · intro hout
      simp only [ShapeData.PhysicsShapeType.ofValue?, ShapeData.PhysicsShapeType.enumerators,
        List.find?_eq_none]
      intro k _
      cases k <;> simp [ShapeData.PhysicsShapeType.value] <;> omega

/-- C10: the reserved identifiers are terrain = 0, ground plane = 1 and
invalid-hit = 4294967295 = 2^32 - 1, the largest 32-bit unsigned value; they
are pairwise distinct, and the invalid-hit value is strictly greater than
every other 32-bit identifier. -/
theorem reserved_ids (id : IDTYPE) (h32 : id < 2 ^ 32) (hne : id ≠ ID_INVALID_HIT) :
    (ID_TERRAIN = 0 ∧ ID_GROUND_PLANE = 1 ∧ ID_INVALID_HIT = 4294967295) ∧
    (ID_INVALID_HIT = 2 ^ 32 - 1 ∧ ID_INVALID_HIT < 2 ^ 32 ∧
      ∀ n : IDTYPE, n < 2 ^ 32 → n ≤ ID_INVALID_HIT) ∧
    (ID_TERRAIN ≠ ID_GROUND_PLANE ∧ ID_TERRAIN ≠ ID_INVALID_HIT ∧
      ID_GROUND_PLANE ≠ ID_INVALID_HIT) ∧
    id < ID_INVALID_HIT := by
  have hv : ID_INVALID_HIT = 4294967295 := rfl
  refine ⟨⟨rfl, rfl, rfl⟩, ⟨by rw [hv]; norm_num, by rw [hv]; norm_num, ?_⟩,
    ⟨by decide, by decide, by decide⟩, ?_⟩
  · intro n hn
    exact u32_le_max n hn
  · exact u32_lt_max id h32 hne

/-- C10 at a concrete input: the ground-plane identifier is a 32-bit value
other than the invalid-hit value, hence below it. -/
theorem reserved_ids_witness :
    ID_GROUND_PLANE < 2 ^ 32 ∧ ID_GROUND_PLANE ≠ ID_INVALID_HIT ∧
    ID_GROUND_PLANE < ID_INVALID_HIT :=
  ⟨by decide, by decide,
   (reserved_ids ID_GROUND_PLANE (by decide) (by decide)).2.2.2⟩

/-! ## Snapshot assignment -/

/-- C13: `EntityProperties` assignment copies the whole snapshot by value.
For every target `t` and source `e`, after `t = e` all six fields of `t`
equal those of `e`; the source is left as it was, also when the target is the
source itself; and assigning the same source a second time changes nothing. -/
theorem EntityProperties.assign_copies_snapshot (t e : EntityProperties) :
    ((t.assign e).ID = e.ID ∧ (t.assign e).Position = e.Position ∧
     (t.assign e).Rotation = e.Rotation ∧ (t.assign e).Velocity = e.Velocity ∧
     (t.assign e).Acceleration = e.Acceleration ∧
     (t.assign e).AngularVelocity = e.AngularVelocity) ∧
    t.assign e = e ∧
    e.assign e = e ∧
    (t.assign e).assign e = t.assign e :=
  ⟨⟨rfl, rfl, rfl, rfl, rfl, rfl⟩, rfl, rfl, rfl⟩

/-! ## Algebra of the approximate equality -/

/-- C14, as stated, fails: with the positive epsilon `2 ^ -10` the vector
`(131072, 0, 0)` is not `AlmostEqual` to itself, and with the positive epsilon
`2 ^ -26` the quaternion `(0, 0, 0, 1)` is not `AlmostEqual` to itself:
rounding absorbs the epsilon in `v.c - epsilon` and `v.c + epsilon`. -/
theorem AlmostEqual_self_false_with_positive_epsilon :
    (F32Val.lt F32.zero.val (F32.dyadic 1 (-10)).val = true ∧
      (exampleVector (1, 17) (0, 0) (0, 0)).AlmostEqual
        (exampleVector (1, 17) (0, 0) (0, 0)) (F32.dyadic 1 (-10)) = false) ∧
    (F32Val.lt F32.zero.val (F32.dyadic 1 (-26)).val = true ∧
      (exampleRotation (1, 0)).AlmostEqual (exampleRotation (1, 0)) (F32.dyadic 1 (-26))
        = false) :=
  ⟨⟨by decide, by decide⟩, ⟨by decide, by decide⟩⟩

/-- C14, amended: with an epsilon that is zero or negative `AlmostEqual` is
false for every pair of vectors and for every pair of quaternions; in
particular a value is `AlmostEqual` to itself only when epsilon is
positive. -/
theorem AlmostEqual_nonpos_epsilon (a v : Vector3) (qa qv : Quaternion) (epsilon : F32)
    (h : F32Val.le epsilon.val F32.zero.val = true) :
    a.AlmostEqual v epsilon = false ∧
    qa.AlmostEqual qv epsilon = false ∧
    (∀ e : F32, v.AlmostEqual v e = true → F32Val.lt F32.zero.val e.val = true) ∧
    (∀ e : F32, qv.AlmostEqual qv e = true → F32Val.lt F32.zero.val e.val = true) := by
  refine ⟨?_, ?_, ?_, ?_⟩
  · rw [← Bool.not_eq_true, Vector3.AlmostEqual_unfold_vec]
    rintro ⟨hx, -, -⟩
    exact F32.not_inWindow_of_nonpos _ _ _ h hx
  · rw [← Bool.not_eq_true, Quaternion.AlmostEqual_unfold_quat]
    rintro ⟨hx, -, -, -⟩
    exact F32.not_inWindow_of_nonpos _ _ _ h hx
  · intro e he
    rw [Vector3.AlmostEqual_unfold_vec] at he
    exact F32.pos_of_inWindow _ _ _ he.1
  · intro e he
    rw [Quaternion.AlmostEqual_unfold_quat] at he
    exact F32.pos_of_inWindow _ _ _ he.1

/-- C14 amended, at a concrete input, epsilon `0`: the vector `(1, 2, 3)` is
not `AlmostEqual` to itself, nor is the quaternion `(0, 0, 0, 1)`. -/
theorem AlmostEqual_nonpos_epsilon_witness :
    F32Val.le F32.zero.val F32.zero.val = true ∧
    (exampleVector (1, 0) (2, 0) (3, 0)).AlmostEqual (exampleVector (1, 0) (2, 0) (3, 0))
      F32.zero = false ∧
    (exampleRotation (1, 0)).AlmostEqual (exampleRotation (1, 0)) F32.zero = false :=
  ⟨by decide,
   (AlmostEqual_nonpos_epsilon (exampleVector (1, 0) (2, 0) (3, 0))
      (exampleVector (1, 0) (2, 0) (3, 0)) (exampleRotation (1, 0)) (exampleRotation (1, 0))
      F32.zero (by decide)).1,
   (AlmostEqual_nonpos_epsilon (exampleVector (1, 0) (2, 0) (3, 0))
      (exampleVector (1, 0) (2, 0) (3, 0)) (exampleRotation (1, 0)) (exampleRotation (1, 0))
      F32.zero (by decide)).2.1⟩

/-- Rounding breaks the symmetry of `Vector3.AlmostEqual`: with epsilon `1`,
`(2 ^ -30, 0, 0)` is accepted against `(1, 0, 0)` but `(1, 0, 0)` is rejected
against `(2 ^ -30, 0, 0)`, because `2 ^ -30 + 1` rounds to `1`. -/
theorem Vector3.AlmostEqual_asymmetric_under_rounding :
    (exampleVector (1, -30) (0, 0) (0, 0)).AlmostEqual (exampleVector (1, 0) (0, 0) (0, 0))
      (F32.dyadic 1 0) = true ∧
    (exampleVector (1, 0) (0, 0) (0, 0)).AlmostEqual (exampleVector (1, -30) (0, 0) (0, 0))
      (F32.dyadic 1 0) = false :=
  ⟨by decide, by decide⟩

/-- C15: over exact arithmetic `Vector3.AlmostEqual` is symmetric in its two
vectors: for every `a`, `v` and every epsilon for which the sums and
differences `a.c + epsilon`, `a.c - epsilon`, `v.c + epsilon`,
`v.c - epsilon` are computed without rounding, `a.AlmostEqual(v, epsilon)`
equals `v.AlmostEqual(a, epsilon)`. -/
theorem Vector3.AlmostEqual_symmetric (a v : Vector3) (epsilon : F32)
    (ha : a.exactPM epsilon = true) (hv : v.exactPM epsilon = true) :
    a.AlmostEqual v epsilon = v.AlmostEqual a epsilon := by
  simp only [Vector3.exactPM, Bool.and_eq_true] at ha hv
  rw [Bool.eq_iff_iff, Vector3.AlmostEqual_unfold_vec, Vector3.AlmostEqual_unfold_vec,
    F32.inWindow_symm _ _ _ ha.1.1 hv.1.1, F32.inWindow_symm _ _ _ ha.1.2 hv.1.2,
    F32.inWindow_symm _ _ _ ha.2 hv.2]

/-- C15 at a concrete input: with epsilon `1` every sum and difference around
`(1/2, 0, 0)` and around the origin is exact, and the two vectors accept each
other. -/
theorem Vector3.AlmostEqual_symmetric_witness :
    (exampleVector (1, -1) (0, 0) (0, 0)).exactPM (F32.dyadic 1 0) = true ∧
    (exampleVector (0, 0) (0, 0) (0, 0)).exactPM (F32.dyadic 1 0) = true ∧
    (exampleVector (1, -1) (0, 0) (0, 0)).AlmostEqual (exampleVector (0, 0) (0, 0) (0, 0))
      (F32.dyadic 1 0) = true ∧
    (exampleVector (1, -1) (0, 0) (0, 0)).AlmostEqual (exampleVector (0, 0) (0, 0) (0, 0))
      (F32.dyadic 1 0) =
    (exampleVector (0, 0) (0, 0) (0, 0)).AlmostEqual (exampleVector (1, -1) (0, 0) (0, 0))
      (F32.dyadic 1 0) :=
  ⟨by decide, by decide, by decide,
   Vector3.AlmostEqual_symmetric (exampleVector (1, -1) (0, 0) (0, 0))
     (exampleVector (0, 0) (0, 0) (0, 0)) (F32.dyadic 1 0) (by decide) (by decide)⟩

/-- C16, as stated, fails: `(131072, 0, 0) == (131072, 0, 0)` holds and
`2 ^ -10` is positive, yet the two are not `AlmostEqual` with that epsilon. -/
theorem Vector3.AlmostEqual_false_although_operator_eq :
    F32Val.lt F32.zero.val (F32.dyadic 1 (-10)).val = true ∧
    (exampleVector (1, 17) (0, 0) (0, 0)).eq (exampleVector (1, 17) (0, 0) (0, 0)) = true ∧
    (exampleVector (1, 17) (0, 0) (0, 0)).AlmostEqual (exampleVector (1, 17) (0, 0) (0, 0))
      (F32.dyadic 1 (-10)) = false :=
  ⟨by decide, by decide, by decide⟩

/-- C16, amended: for every pair of vectors with `a == b`, all three
components being equal, and every positive epsilon, `a.AlmostEqual(b, epsilon)`
is true exactly when rounding absorbs epsilon on no axis: neither
`b.c - epsilon` nor `b.c + epsilon`, as computed in single precision, is
`b.c` again. -/
theorem Vector3.AlmostEqual_of_operator_eq (a b : Vector3) (epsilon : F32)
    (h : F32Val.lt F32.zero.val epsilon.val = true) (hab : a.eq b = true) :
    a.AlmostEqual b epsilon = true ↔
      ((b.X.sub epsilon ≠ b.X.val ∧ b.X.add epsilon ≠ b.X.val) ∧
       (b.Y.sub epsilon ≠ b.Y.val ∧ b.Y.add epsilon ≠ b.Y.val) ∧
       (b.Z.sub epsilon ≠ b.Z.val ∧ b.Z.add epsilon ≠ b.Z.val)) := by
  simp only [Vector3.eq, Bool.and_eq_true] at hab
  obtain ⟨⟨hx, hy⟩, hz⟩ := hab
  have ex := F32Val.eq_of_eq_true _ _ hx
  have ey := F32Val.eq_of_eq_true _ _ hy
  have ez := F32Val.eq_of_eq_true _ _ hz
  rw [Vector3.AlmostEqual_unfold_vec, ← F32.inWindow_self_iff b.X epsilon h,
    ← F32.inWindow_self_iff b.Y epsilon h, ← F32.inWindow_self_iff b.Z epsilon h]
  simp only [F32.InWindow, ex, ey, ez]

/-- C16 amended, at a concrete input: `(1, 2, 3) == (1, 2, 3)`, epsilon
`2 ^ -10` is absorbed on no axis, and the two are `AlmostEqual`. -/
theorem Vector3.AlmostEqual_of_operator_eq_witness :
    F32Val.lt F32.zero.val (F32.dyadic 1 (-10)).val = true ∧
    (exampleVector (1, 0) (2, 0) (3, 0)).eq (exampleVector (1, 0) (2, 0) (3, 0)) = true ∧
    (exampleVector (1, 0) (2, 0) (3, 0)).AlmostEqual (exampleVector (1, 0) (2, 0) (3, 0))
      (F32.dyadic 1 (-10)) = true :=
  ⟨by decide, by decide,
   (Vector3.AlmostEqual_of_operator_eq (exampleVector (1, 0) (2, 0) (3, 0))
      (exampleVector (1, 0) (2, 0) (3, 0)) (F32.dyadic 1 (-10)) (by decide) (by decide)).mpr
     ⟨⟨by decide, by decide⟩, ⟨by decide, by decide⟩, ⟨by decide, by decide⟩⟩⟩

/-- C17: `Vector3.AlmostEqual` is monotone in the tolerance: what is accepted
with `epsilon1` is accepted with every `epsilon2` that is at least as large. -/
theorem Vector3.AlmostEqual_mono_epsilon (a v : Vector3) (epsilon1 epsilon2 : F32)
    (hle : F32Val.le epsilon1.val epsilon2.val = true)
    (h : a.AlmostEqual v epsilon1 = true) :
    a.AlmostEqual v epsilon2 = true := by
  rw [Vector3.AlmostEqual_unfold_vec] at h ⊢
  exact ⟨F32.inWindow_mono _ _ _ _ hle h.1, F32.inWindow_mono _ _ _ _ hle h.2.1,
    F32.inWindow_mono _ _ _ _ hle h.2.2⟩

/-- C17 at a concrete input: `(1/2, 0, 0)` is accepted against the origin
with epsilon `1`, hence with epsilon `2`. -/
theorem Vector3.AlmostEqual_mono_epsilon_witness :
    F32Val.le (F32.dyadic 1 0).val (F32.dyadic 2 0).val = true ∧
    (exampleVector (1, -1) (0, 0) (0, 0)).AlmostEqual (exampleVector (0, 0) (0, 0) (0, 0))
      (F32.dyadic 1 0) = true ∧
    (exampleVector (1, -1) (0, 0) (0, 0)).AlmostEqual (exampleVector (0, 0) (0, 0) (0, 0))
      (F32.dyadic 2 0) = true :=
  ⟨by decide, by decide,
   Vector3.AlmostEqual_mono_epsilon (exampleVector (1, -1) (0, 0) (0, 0))
     (exampleVector (0, 0) (0, 0) (0, 0)) (F32.dyadic 1 0) (F32.dyadic 2 0)
     (by decide) (by decide)⟩

/-- C18: `Vector3.AlmostEqual` is not transitive: `(0, 0, 0)`, `(3/4, 0, 0)`
and `(3/2, 0, 0)` with epsilon `1` are accepted pairwise in a chain while the
two ends are rejected. What holds for every `a`, `b`, `c` is that the two
acceptances with epsilon imply acceptance of the ends with `2 * epsilon`, the
double being the `float` sum of epsilon with itself. -/
theorem Vector3.AlmostEqual_not_transitive (a b c : Vector3) (epsilon epsilon2 : F32)
    (h2 : epsilon2.val = F32Val.add epsilon.val epsilon.val)
    (hab : a.AlmostEqual b epsilon = true) (hbc : b.AlmostEqual c epsilon = true) :
    (∃ a0 b0 c0 : Vector3, ∃ e0 : F32, F32Val.lt F32.zero.val e0.val = true ∧
      a0.AlmostEqual b0 e0 = true ∧ b0.AlmostEqual c0 e0 = true ∧
      a0.AlmostEqual c0 e0 = false) ∧
    a.AlmostEqual c epsilon2 = true := by
  constructor
  · exact ⟨exampleVector (0, 0) (0, 0) (0, 0), exampleVector (3, -2) (0, 0) (0, 0),
      exampleVector (3, -1) (0, 0) (0, 0), F32.dyadic 1 0, by decide, by decide, by decide,
      by decide⟩
  · rw [Vector3.AlmostEqual_unfold_vec] at hab hbc ⊢
    exact ⟨F32.inWindow_chain _ _ _ _ _ h2 hab.1 hbc.1,
      F32.inWindow_chain _ _ _ _ _ h2 hab.2.1 hbc.2.1,
      F32.inWindow_chain _ _ _ _ _ h2 hab.2.2 hbc.2.2⟩

/-- C18 at a concrete input: the chain `(0, 0, 0)`, `(3/4, 0, 0)`,
`(3/2, 0, 0)` with epsilon `1`; the ends are rejected with epsilon `1` and
accepted with epsilon `2 = 1 + 1`. -/
theorem Vector3.AlmostEqual_not_transitive_witness :
    (F32.dyadic 2 0).val = F32Val.add (F32.dyadic 1 0).val (F32.dyadic 1 0).val ∧
    (exampleVector (0, 0) (0, 0) (0, 0)).AlmostEqual (exampleVector (3, -2) (0, 0) (0, 0))
      (F32.dyadic 1 0) = true ∧
    (exampleVector (3, -2) (0, 0) (0, 0)).AlmostEqual (exampleVector (3, -1) (0, 0) (0, 0))
      (F32.dyadic 1 0) = true ∧
    (exampleVector (0, 0) (0, 0) (0, 0)).AlmostEqual (exampleVector (3, -1) (0, 0) (0, 0))
      (F32.dyadic 1 0) = false ∧
    (exampleVector (0, 0) (0, 0) (0, 0)).AlmostEqual (exampleVector (3, -1) (0, 0) (0, 0))
      (F32.dyadic 2 0) = true :=
  ⟨by decide, by decide, by decide, by decide,
   (Vector3.AlmostEqual_not_transitive (exampleVector (0, 0) (0, 0) (0, 0))
      (exampleVector (3, -2) (0, 0) (0, 0)) (exampleVector (3, -1) (0, 0) (0, 0))
      (F32.dyadic 1 0) (F32.dyadic 2 0) (by decide) (by decide) (by decide)).2⟩

/-- A finite positive `float` has a positive rational reading. -/
theorem F32.toRat_pos (e : F32) (hpos : F32Val.lt F32.zero.val e.val = true)
    (hfin : e.val.isFinite = true) : 0 < e.toRat := by
  have hz : F32.zero.val = F32Val.fin 0 := by decide
  rw [hz] at hpos
  obtain ⟨ev, he⟩ := e
  cases ev <;> simp [F32Val.isFinite] at hfin
  rename_i en
  simp only [F32Val.lt_fin_fin, decide_eq_true_eq] at hpos
  simp only [F32.toRat, F32Val.toRat]
  have : (0 : ℚ) < (en : ℚ) := by exact_mod_cast hpos
  positivity

/-- C19: the per-axis test is sandwiched between two Euclidean tests. For
every pair of vectors and every finite positive epsilon: in exact arithmetic,
that is where `v.c - epsilon` and `v.c + epsilon` are computed without
rounding on every axis, a squared Euclidean distance below `epsilon ^ 2`
implies acceptance; and acceptance implies a squared Euclidean distance below
`3 * epsilon ^ 2`. -/
theorem Vector3.AlmostEqual_euclidean_sandwich (a v : Vector3) (epsilon : F32)
    (hpos : F32Val.lt F32.zero.val epsilon.val = true)
    (hfin : epsilon.val.isFinite = true) :
    (v.exactPM epsilon = true → a.isFinite = true →
      Vector3.distSq a v < epsilon.toRat ^ 2 → a.AlmostEqual v epsilon = true) ∧
    (a.AlmostEqual v epsilon = true → Vector3.distSq a v < 3 * epsilon.toRat ^ 2) := by
  have he0 : 0 < epsilon.toRat := F32.toRat_pos epsilon hpos hfin
  constructor
  · intro hex hafin hd
    simp only [Vector3.exactPM, Bool.and_eq_true] at hex
    obtain ⟨⟨hex1, hex2⟩, hex3⟩ := hex
    simp only [Vector3.isFinite, Bool.and_eq_true] at hafin
    obtain ⟨⟨hax, hay⟩, haz⟩ := hafin
    simp only [Vector3.distSq] at hd
    have hx : 0 ≤ (a.X.toRat - v.X.toRat) ^ 2 := sq_nonneg _
    have hy : 0 ≤ (a.Y.toRat - v.Y.toRat) ^ 2 := sq_nonneg _
    have hz : 0 ≤ (a.Z.toRat - v.Z.toRat) ^ 2 := sq_nonneg _
    have wx := (window_iff_abs a.X.toRat v.X.toRat epsilon.toRat).mpr
      (abs_lt_of_sq_lt_sq (by linarith) he0.le)
    have wy := (window_iff_abs a.Y.toRat v.Y.toRat epsilon.toRat).mpr
      (abs_lt_of_sq_lt_sq (by linarith) he0.le)
    have wz := (window_iff_abs a.Z.toRat v.Z.toRat epsilon.toRat).mpr
      (abs_lt_of_sq_lt_sq (by linarith) he0.le)
    have fx : v.X.val.isFinite = true := by
      obtain ⟨cn, en, hc, -, -, -⟩ := F32.exactPM_spec _ _ hex1
      rw [hc]; rfl
    have fy : v.Y.val.isFinite = true := by
      obtain ⟨cn, en, hc, -, -, -⟩ := F32.exactPM_spec _ _ hex2
      rw [hc]; rfl
    have fz : v.Z.val.isFinite = true := by
      obtain ⟨cn, en, hc, -, -, -⟩ := F32.exactPM_spec _ _ hex3
      rw [hc]; rfl
    rw [Vector3.AlmostEqual_unfold_vec]
    exact ⟨F32.inWindow_of_exactWindow _ _ _ hex1 ⟨hax, fx, hfin, wx.1, wx.2⟩,
      F32.inWindow_of_exactWindow _ _ _ hex2 ⟨hay, fy, hfin, wy.1, wy.2⟩,
      F32.inWindow_of_exactWindow _ _ _ hex3 ⟨haz, fz, hfin, wz.1, wz.2⟩⟩
  · intro hacc
    rw [Vector3.AlmostEqual_unfold_vec] at hacc
    have hx := F32.abs_lt_of_exactWindow _ _ _ (F32.exactWindow_of_inWindow _ _ _ hfin hacc.1)
    have hy := F32.abs_lt_of_exactWindow _ _ _
      (F32.exactWindow_of_inWindow _ _ _ hfin hacc.2.1)
    have hz := F32.abs_lt_of_exactWindow _ _ _
      (F32.exactWindow_of_inWindow _ _ _ hfin hacc.2.2)
    have hx2 : (a.X.toRat - v.X.toRat) ^ 2 < epsilon.toRat ^ 2 :=
      sq_lt_sq' (abs_lt.mp hx).1 (abs_lt.mp hx).2
    have hy2 : (a.Y.toRat - v.Y.toRat) ^ 2 < epsilon.toRat ^ 2 :=
      sq_lt_sq' (abs_lt.mp hy).1 (abs_lt.mp hy).2
    have hz2 : (a.Z.toRat - v.Z.toRat) ^ 2 < epsilon.toRat ^ 2 :=
      sq_lt_sq' (abs_lt.mp hz).1 (abs_lt.mp hz).2
    simp only [Vector3.distSq]
    linarith

/-- C19 at a concrete input: `(1/2, 1/2, 1/2)` is at squared distance `3/4`
below `1 ^ 2` from the origin, the sums `0 + 1` and differences `0 - 1` are
exact, so it is accepted with epsilon `1`, and its squared distance is below
`3 * 1 ^ 2`. -/
theorem Vector3.AlmostEqual_euclidean_sandwich_witness :
    F32Val.lt F32.zero.val (F32.dyadic 1 0).val = true ∧
    Vector3.distSq (exampleVector (1, -1) (1, -1) (1, -1))
      (exampleVector (0, 0) (0, 0) (0, 0)) < (F32.dyadic 1 0).toRat ^ 2 ∧
    (exampleVector (1, -1) (1, -1) (1, -1)).AlmostEqual (exampleVector (0, 0) (0, 0) (0, 0))
      (F32.dyadic 1 0) = true ∧
    Vector3.distSq (exampleVector (1, -1) (1, -1) (1, -1))
      (exampleVector (0, 0) (0, 0) (0, 0)) < 3 * (F32.dyadic 1 0).toRat ^ 2 :=
  have hh : (F32.dyadic 1 (-1)).val = F32Val.fin (2 ^ 148) := by decide
  have h0 : (F32.dyadic 0 0).val = F32Val.fin 0 := by decide
  have h1 : (F32.dyadic 1 0).val = F32Val.fin (2 ^ 149) := by decide
  have hd : Vector3.distSq (exampleVector (1, -1) (1, -1) (1, -1))
      (exampleVector (0, 0) (0, 0) (0, 0)) < (F32.dyadic 1 0).toRat ^ 2 := by
    simp only [Vector3.distSq, exampleVector, F32.toRat, hh, h0, h1, F32Val.toRat]
    norm_num
  have hacc := (Vector3.AlmostEqual_euclidean_sandwich (exampleVector (1, -1) (1, -1) (1, -1))
      (exampleVector (0, 0) (0, 0) (0, 0)) (F32.dyadic 1 0) (by decide) (by decide)).1
      (by decide) (by decide) hd
  ⟨by decide, hd, hacc,
   (Vector3.AlmostEqual_euclidean_sandwich (exampleVector (1, -1) (1, -1) (1, -1))
      (exampleVector (0, 0) (0, 0) (0, 0)) (F32.dyadic 1 0) (by decide) (by decide)).2 hacc⟩

/-! ## Step synchronization and object creation -/

/-- Membership in the step batch: an entry of the batch is the current state
of a table entry that changed beyond tolerance. -/
theorem mem_stepBatch_iff (epsilon : F32) (table : List TrackedObject) (e : EntityProperties) :
    e ∈ stepBatch epsilon table ↔
      ∃ o ∈ table, o.changed epsilon = true ∧ o.current = e := by
  simp only [stepBatch, List.mem_insertionSort, List.mem_map, List.mem_filter]
  constructor
  · rintro ⟨o, ⟨ho, hc⟩, rfl⟩
    exact ⟨o, ho, hc, rfl⟩
  · rintro ⟨o, ho, hc, rfl⟩
    exact ⟨o, ⟨ho, hc⟩, rfl⟩

/-- The step batch is ordered by object identifier. -/
theorem stepBatch_sorted_by_id (epsilon : F32) (table : List TrackedObject) :
    (stepBatch epsilon table).Sorted (fun x y => x.ID ≤ y.ID) := by
  haveI : IsTotal EntityProperties (fun x y => x.ID ≤ y.ID) :=
    ⟨fun x y => Nat.le_total x.ID y.ID⟩
  haveI : IsTrans EntityProperties (fun x y => x.ID ≤ y.ID) :=
    ⟨fun _ _ _ hxy hyz => Nat.le_trans hxy hyz⟩
  exact List.sorted_insertionSort _ _

/-- An object that moved beyond tolerance is reported: the batch is not
empty by construction. -/
theorem stepBatch_reports_changed (epsilon : F32) (table : List TrackedObject)
    (o : TrackedObject) (ho : o ∈ table) (hc : o.changed epsilon = true) :
    o.current ∈ stepBatch epsilon table :=
  (mem_stepBatch_iff epsilon table o.current).mpr ⟨o, ho, hc, rfl⟩

/-- A creation with an identifier that is not reserved and keys that resolve
succeeds and adds exactly that object. -/
theorem CreateObject_accepts (resolves : ShapeData → Bool) (world : List ShapeData)
    (shape : ShapeData) (hid : isReservedID shape.ID = false) (hk : resolves shape = true) :
    CreateObject resolves world shape = (true, world ++ [shape]) := by
  simp [CreateObject, hid, hk]

/-- C11: suppression of redundant updates. In a table whose identifiers are
distinct, an object whose position, rotation, velocity and angular velocity
after the step are each `AlmostEqual`, within the policy epsilon, to the
values last reported to the host does not appear in the batch of that step:
no entry of the batch carries its identifier, and its state is not in the
batch. -/
theorem stepBatch_suppresses_unchanged (epsilon : F32) (table : List TrackedObject)
    (o : TrackedObject)
    (hids : (table.map (fun t => t.current.ID)).Nodup)
    (ho : o ∈ table)
    (hp : o.current.Position.AlmostEqual o.lastReported.Position epsilon = true)
    (hr : o.current.Rotation.AlmostEqual o.lastReported.Rotation epsilon = true)
    (hv : o.current.Velocity.AlmostEqual o.lastReported.Velocity epsilon = true)
    (hw : o.current.AngularVelocity.AlmostEqual o.lastReported.AngularVelocity epsilon
      = true) :
    (∀ e ∈ stepBatch epsilon table, e.ID ≠ o.current.ID) ∧
    o.current ∉ stepBatch epsilon table := by
  have hun : o.changed epsilon = false := by
    simp [TrackedObject.changed, hp, hr, hv, hw]
  have hno : ∀ e ∈ stepBatch epsilon table, e.ID ≠ o.current.ID := by
    intro e he hid
    obtain ⟨o2, ho2, hc2, rfl⟩ := (mem_stepBatch_iff epsilon table e).mp he
    have hsame : o2 = o := List.inj_on_of_nodup_map hids ho2 ho hid
    rw [hsame, hun] at hc2
    exact Bool.false_ne_true hc2
  exact ⟨hno, fun hin => hno o.current hin rfl⟩

/-- C11 at a concrete input, policy epsilon `2 ^ -7`: in the example table
object `5` moved by `2 ^ -10` only, so no entry of the batch carries the
identifier `5`, while object `7`, which moved by `1`, is reported. -/
theorem stepBatch_suppresses_unchanged_witness :
    (exampleTable.map (fun t => t.current.ID)).Nodup ∧
    (∀ e ∈ stepBatch (F32.dyadic 1 (-7)) exampleTable, e.ID ≠ 5) ∧
    exampleEntity 7 (exampleVector (1, 0) (0, 0) (0, 0)) ∈
      stepBatch (F32.dyadic 1 (-7)) exampleTable :=
  ⟨by decide,
   (stepBatch_suppresses_unchanged (F32.dyadic 1 (-7)) exampleTable
      { current := exampleEntity 5 (exampleVector (0, 0) (1, -10) (0, 0))
        lastReported := exampleEntity 5 (exampleVector (0, 0) (0, 0) (0, 0)) }
      (by decide)
      (by simp [exampleTable])
      (by decide) (by decide) (by decide) (by decide)).1,
   (mem_stepBatch_iff (F32.dyadic 1 (-7)) exampleTable _).mpr
     ⟨{ current := exampleEntity 7 (exampleVector (1, 0) (0, 0) (0, 0))
        lastReported := exampleEntity 7 (exampleVector (0, 0) (0, 0) (0, 0)) },
      by simp [exampleTable], by decide, rfl⟩⟩

/-- C12: creating an object whose `ShapeData.ID` is a reserved identifier,
`0`, `1` or the invalid-hit sentinel `0xFFFFFFFF`, fails; the world after the
call is the world before it, so the object was not entered under another
identifier, and the object count is unchanged. -/
theorem CreateObject_rejects_reserved (resolves : ShapeData → Bool) (world : List ShapeData)
    (shape : ShapeData)
    (hid : shape.ID = 0 ∨ shape.ID = 1 ∨ shape.ID = 0xFFFFFFFF) :
    (CreateObject resolves world shape).1 = false ∧
    (CreateObject resolves world shape).2 = world ∧
    (CreateObject resolves world shape).2.length = world.length := by
  have hres : isReservedID shape.ID = true := by
    rcases hid with h | h | h <;> rw [h] <;> decide
  simp [CreateObject, hres]

/-- C12 at a concrete input: in a world holding object `42`, whose geometry
cache resolves every key, creating a box with the sentinel identifier
`0xFFFFFFFF` fails and the world still holds one object. -/
theorem CreateObject_rejects_reserved_witness :
    (CreateObject (fun _ => true) [exampleShape 42] (exampleShape 0xFFFFFFFF)).1 = false ∧
    (CreateObject (fun _ => true) [exampleShape 42] (exampleShape 0xFFFFFFFF)).2
      = [exampleShape 42] ∧
    (CreateObject (fun _ => true) [exampleShape 42] (exampleShape 0xFFFFFFFF)).2.length = 1 :=
  CreateObject_rejects_reserved (fun _ => true) [exampleShape 42] (exampleShape 0xFFFFFFFF)
    (Or.inr (Or.inr rfl))

end BulletSim
